import Mathlib

/-!
Verification of the connector routing engine (BlockSuite edgeless connectors).

This file gives a shallow embedding of the connector path generator, the
point-location serialization, the surface middleware scheduling guard, and the
orthogonal router helpers, translated from the TypeScript sources:

* packages/framework/global/src/utils/model/point-location.ts
* packages/blocks/src/_specs/preset/edgeless-specs.ts (connector manager)
* the surface connector middleware

Numeric values are modelled as elements of a linear ordered field; the
executable development instantiates the rationals so that concrete runs of the
code can be evaluated by decision procedures.  Helpers that live in the
repository's shared utility packages (Vec, Bound, almostEqual, ...) and are not
part of the provided sources are reconstructed from the specification's
descriptions; each such definition carries a doc comment saying so.
-/

namespace Connector

section Scalar

variable {K : Type} [LinearOrderedField K] [DecidableEq K]

/-- Modelled from the spec: Vector2 addition (shared Vec utility, not under src). -/
def Vec.add (a b : K × K) : K × K := (a.1 + b.1, a.2 + b.2)

/-- Modelled from the spec: Vector2 subtraction. -/
def Vec.sub (a b : K × K) : K × K := (a.1 - b.1, a.2 - b.2)

/-- Modelled from the spec: Vector2 scaling. -/
def Vec.mul (a : K × K) (s : K) : K × K := (a.1 * s, a.2 * s)

/-- Modelled from the spec: linear interpolation between two vectors,
Vec.lrp(a, b, t) = a + (b - a) * t. -/
def Vec.lrp (a b : K × K) (t : K) : K × K :=
  Vec.add a (Vec.mul (Vec.sub b a) t)

/-- Modelled from the spec: cubic Bezier evaluation by De Casteljau
subdivision (Vec.lrpCubic of the shared utilities). -/
def Vec.lrpCubic (a b c d : K × K) (t : K) : K × K :=
  let ab := Vec.lrp a b t
  let bc := Vec.lrp b c t
  let cd := Vec.lrp c d t
  let abbc := Vec.lrp ab bc t
  let bccd := Vec.lrp bc cd t
  Vec.lrp abbc bccd t

/-- Modelled from the spec: squared Euclidean distance of two vectors. -/
def Vec.distSq (a b : K × K) : K := (a.1 - b.1) ^ 2 + (a.2 - b.2) ^ 2

/-- Modelled from the spec: almostEqual(a, b, tol) compares coordinates up to a
small tolerance, |a - b| < tol (shared utility, not under src). -/
def almostEqual (a b tol : K) : Prop := |a - b| < tol

instance (a b tol : K) : Decidable (almostEqual a b tol) := by
  unfold almostEqual; infer_instance

/-- The serialized representation of a path point, the components in the
tuple order [ [x,y], [tangentX,tangentY], [inX,inY], [outX,outY], pinnedX,
pinnedY ] (type XYTangentInOut of point-location.ts; the pin flags are 0/1
numbers). -/
structure XYTangentInOut (K : Type) where
  xy : K × K
  tangent : K × K
  inVec : K × K
  outVec : K × K
  fx : K
  fy : K
deriving DecidableEq, Repr

/-- PointLocation (point-location.ts): a 2d point together with its tangent,
inbound/outbound control offsets and per-axis freeze (pin) flags.  The
TypeScript class stores the point in array slots 0/1 and the rest in private
fields. -/
structure PointLocation (K : Type) where
  p : K × K
  tangent : K × K
  inV : K × K
  outV : K × K
  freezedX : Bool
  freezedY : Bool
deriving DecidableEq, Repr

instance : Inhabited (PointLocation K) :=
  ⟨⟨(0, 0), (0, 0), (0, 0), (0, 0), false, false⟩⟩

/-- The PointLocation constructor: point, tangent, in, out default to zero
vectors and the freeze flags are the truthiness of the numeric arguments
(freezedAxis.x = !!freezedX). -/
def PointLocation.mk6 (point tangent inVec outVec : K × K) (fx fy : K) :
    PointLocation K :=
  ⟨point, tangent, inVec, outVec, fx ≠ 0, fy ≠ 0⟩

/-- PointLocation.fromVec: only the coordinates are set, everything else is the
constructor default. -/
def PointLocation.fromVec (v : K × K) : PointLocation K :=
  ⟨v, (0, 0), (0, 0), (0, 0), false, false⟩

/-- absIn getter: absolute inbound control point, this + in. -/
def PointLocation.absIn (pt : PointLocation K) : K × K := Vec.add pt.p pt.inV

/-- absOut getter: absolute outbound control point, this + out. -/
def PointLocation.absOut (pt : PointLocation K) : K × K := Vec.add pt.p pt.outV

/-- setVec: replace the coordinates, keeping tangent, controls and flags. -/
def PointLocation.setVec (pt : PointLocation K) (v : K × K) : PointLocation K :=
  { pt with p := v }

/-- toXYTangentInOut (point-location.ts, lines 125-134): serialize the six
components, the freeze flags as 0/1 numbers. -/
def PointLocation.toXYTangentInOut (pt : PointLocation K) : XYTangentInOut K :=
  ⟨pt.p, pt.tangent, pt.inV, pt.outV,
    (if pt.freezedX then 1 else 0), (if pt.freezedY then 1 else 0)⟩

/-- Deserialization: new PointLocation(...tuple), as done by
ConnectorPathGenerator.updatePath (edgeless-specs.ts line 1610). -/
def PointLocation.ofXYTangentInOut (s : XYTangentInOut K) : PointLocation K :=
  PointLocation.mk6 s.xy s.tangent s.inVec s.outVec s.fx s.fy

/-- Bound: an axis-aligned rectangle x/y/w/h.  The shared Bound class is not
under src; its fields and derived accessors follow the spec's data model. -/
structure Bound (K : Type) where
  x : K
  y : K
  w : K
  h : K
deriving DecidableEq, Repr

/-- maxX accessor. -/
def Bound.maxX (b : Bound K) : K := b.x + b.w

/-- maxY accessor. -/
def Bound.maxY (b : Bound K) : K := b.y + b.h

/-- center accessor. -/
def Bound.center (b : Bound K) : K × K := (b.x + b.w / 2, b.y + b.h / 2)

/-- A connection endpoint: either a shape reference (id, with an optional
relative position) or a free absolute position (connector.ts Connection). -/
structure Connection where
  id : Option String
  position : Option (K × K)
deriving DecidableEq, Repr

/-- ConnectorMode (consts): straight, orthogonal or curve. -/
inductive ConnectorMode where
  | Straight
  | Orthogonal
  | Curve
deriving DecidableEq, Repr

/-- The connector state acted on by ConnectorPathGenerator, following
LocalConnectorElementModel (edgeless-specs.ts lines 153-218): a private cached
relative path, the derived absolutePath, the persisted serialized points, the
serialized bounding box xywh and the modeUpdating transient flag. -/
structure Conn (K : Type) [LinearOrderedField K] where
  mode : ConnectorMode
  source : @Connection K
  target : @Connection K
  xywh : Bound K
  pathF : List (PointLocation K)
  absolutePath : List (PointLocation K)
  points : List (XYTangentInOut K)
  modeUpdating : Bool
deriving DecidableEq, Repr

/-- The path getter (edgeless-specs.ts lines 201-206): when the private cache
is empty it is rebuilt by deserializing the stored points.  (The getter also
caches the rebuilt value in the model; the cache write is not observable
through the operations modelled here.) -/
def Conn.pathOf (c : Conn K) : List (PointLocation K) :=
  if c.pathF.isEmpty then c.points.map PointLocation.ofXYTangentInOut else c.pathF

/-- The path setter (edgeless-specs.ts lines 208-213): stores the relative
path and rebuilds absolutePath by translating each point by the connector's
current x/y origin. -/
def Conn.setPath (c : Conn K) (value : List (PointLocation K)) : Conn K :=
  { c with
    pathF := value
    absolutePath :=
      value.map fun p => p.setVec (p.p.1 + c.xywh.x, p.p.2 + c.xywh.y) }

/-- Assigning the points field of the local connector model: a plain field
write, which does not refresh the cached relative path. -/
def Conn.setPoints (c : Conn K) (value : List (XYTangentInOut K)) : Conn K :=
  { c with points := value }

/-- The element capability surface consumed by the generator (spec section 6):
shapes are external collaborators reached through a narrow interface.  Elements
are modelled unrotated (rotate = 0); the rotation-aware transforms live in the
external geometry helpers.  anchors stands for the output of getAnchors. -/
structure Elem (K : Type) [LinearOrderedField K] where
  xywh : Bound K
  anchors : List (PointLocation K)
  relPointLoc : K × K → PointLocation K

/-- Which endpoint of a connector is being resolved. -/
inductive ConnEnd where
  | src
  | tgt
deriving DecidableEq, Repr

/-- Endpoint projection. -/
def Conn.endOf (c : Conn K) : ConnEnd → @Connection K
  | ConnEnd.src => c.source
  | ConnEnd.tgt => c.target

/-- The opposite endpoint. -/
def ConnEnd.other : ConnEnd → ConnEnd
  | ConnEnd.src => ConnEnd.tgt
  | ConnEnd.tgt => ConnEnd.src

/-- closestPoint (edgeless-specs.ts lines 419-423): sort the candidates by
Euclidean distance to the target and take the first.  A stable sort's first
element is the earliest candidate of minimal distance, and the square root is
monotone, so this is the fold keeping the first strict improvement of the
squared distance. -/
def closestPoint : List (PointLocation K) → K × K → Option (PointLocation K)
  | [], _ => none
  | q :: rest, pt =>
    some (rest.foldl
      (fun best r => if Vec.distSq r.p pt < Vec.distSq best.p pt then r else best) q)

/-- getNearestConnectableAnchor (lines 411-417): the anchor of the element
closest to the given point.  (getAnchors always yields four anchors; an empty
anchor list would crash the source, modelled by the default point.) -/
def getNearestConnectableAnchor (e : Elem K) (point : K × K) : PointLocation K :=
  (closestPoint e.anchors point).getD default

/-- getConnectableRelativePosition (lines 398-409): resolve a relative
position through the element, overriding the tangent at the four cardinal
midpoints.  Elements are modelled unrotated, so Vec.rot(v, 0) = v. -/
def getConnectableRelativePosition (e : Elem K) (position : K × K) :
    PointLocation K :=
  let location := e.relPointLoc position
  if position = (0, 1 / 2) then { location with tangent := (0, -1) }
  else if position = (1, 1 / 2) then { location with tangent := (0, 1) }
  else if position = (1 / 2, 0) then { location with tangent := (1, 0) }
  else if position = (1 / 2, 1) then { location with tangent := (-1, 0) }
  else location

/-- _getConnectionPoint (lines 1955-1976), with explicit recursion fuel: the
auto case resolves the opposite endpoint first (the both-auto combination is
intercepted by the callers, so one recursive step suffices).  A missing element
or missing position makes the source throw; modelled as none. -/
def getConnectionPointAux (getEl : String → Option (Elem K)) (c : Conn K) :
    Nat → ConnEnd → Option (PointLocation K)
  | 0, _ => none
  | fuel + 1, which =>
    let connection := c.endOf which
    match connection.id with
    | some i =>
      match getEl i with
      | none => none
      | some e =>
        match connection.position with
        | none =>
          match getConnectionPointAux getEl c fuel which.other with
          | none => none
          | some otherPoint => some (getNearestConnectableAnchor e otherPoint.p)
        | some pos => some (getConnectableRelativePosition e pos)
    | none =>
      match connection.position with
      | some pos => some (PointLocation.fromVec pos)
      | none => none

/-- _getConnectionPoint entry point. -/
def getConnectionPoint (getEl : String → Option (Elem K)) (c : Conn K)
    (which : ConnEnd) : Option (PointLocation K) :=
  getConnectionPointAux getEl c 2 which

/-- The endpoint assignments of the straight/curve generators:
absolutePoints[0] = startPoint; absolutePoints[absolutePoints.length - 1 || 1]
= endPoint (the length is re-read after the first assignment, so arrays of
length at most one grow to [start, end]). -/
def setEnds (l : List (PointLocation K)) (s e : PointLocation K) :
    List (PointLocation K) :=
  match l with
  | [] => [s, e]
  | [_] => [s, e]
  | _ => (l.set 0 s).set (l.length - 1) e

/-- _generateStraightConnectorPath (lines 1913-1953). -/
def generateStraightConnectorPath (getEl : String → Option (Elem K))
    (c : Conn K) : List (PointLocation K) :=
  let absolutePoints :=
    c.pathOf.map fun p => p.setVec (p.p.1 + c.xywh.x, p.p.2 + c.xywh.y)
  if c.source.id.isSome ∧ c.source.position.isNone ∧
      c.target.id.isSome ∧ c.target.position.isNone then
    match c.source.id.bind getEl, c.target.id.bind getEl with
    | some s, some e =>
      let sb := s.xywh
      let eb := e.xywh
      let startPoint := getNearestConnectableAnchor s eb.center
      let endPoint := getNearestConnectableAnchor e sb.center
      setEnds absolutePoints startPoint endPoint
    | _, _ => []
  else
    match getConnectionPoint getEl c ConnEnd.tgt,
        getConnectionPoint getEl c ConnEnd.src with
    | some endPoint, some startPoint => setEnds absolutePoints startPoint endPoint
    | _, _ => []

/-- Modelled from the spec: getBoundFromPoints (shared utility, not under src)
computes the tight axis-aligned bounding box of the points. -/
def getBoundFromPoints : List (PointLocation K) → Bound K
  | [] => ⟨0, 0, 0, 0⟩
  | q :: rest =>
    let minX := rest.foldl (fun a r => min a r.p.1) q.p.1
    let minY := rest.foldl (fun a r => min a r.p.2) q.p.2
    let maxX := rest.foldl (fun a r => max a r.p.1) q.p.1
    let maxY := rest.foldl (fun a r => max a r.p.2) q.p.2
    ⟨minX, minY, maxX - minX, maxY - minY⟩

/-- _getNewBound (lines 1417-1442): compute the new bounding box of the
absolute path (boundOf stands for the mode-dependent choice between the point
bound and the full-Bezier bound), translate every point into the new box's
frame and serialize it. -/
def getNewBound (boundOf : List (PointLocation K) → Bound K)
    (absPath : List (PointLocation K)) :
    Bound K × List (PointLocation K) × List (XYTangentInOut K) :=
  let bound := boundOf absPath
  let path := absPath.map fun p => p.setVec (p.p.1 - bound.x, p.p.2 - bound.y)
  (bound, path, path.map PointLocation.toXYTangentInOut)

/-- The write-back tail of updatePathEnds (lines 1657-1686): update xywh when
the serialized bound changed, then either rewrite the persisted points (when
the first or last serialized point changed) or only replace the in-memory
path, and clear modeUpdating. -/
def updatePathEndsCore (boundOf : List (PointLocation K) → Bound K)
    (absPath : List (PointLocation K)) (c : Conn K) : Conn K :=
  let r := getNewBound boundOf absPath
  let c1 := if r.1 ≠ c.xywh then { c with xywh := r.1 } else c
  let c2 :=
    if r.2.2.head? ≠ c1.points.head? ∨ r.2.2.getLast? ≠ c1.points.getLast? then
      c1.setPoints r.2.2
    else c1.setPath r.2.1
  { c2 with modeUpdating := false }

/-- _resetPathIfNotOrthogonal (lines 1464-1479): in orthogonal mode, when any
interior point is not axis-aligned with its predecessor (tolerance 0.02 on
both axes), discard the stored path for the direct two-point path. -/
def resetPathIfNotOrthogonal (c : Conn K) : Conn K :=
  if c.mode = ConnectorMode.Orthogonal then
    match h : c.pathOf with
    | [] => c
    | q :: rest =>
      let path := q :: rest
      let pairs := path.dropLast.zip path.dropLast.tail
      if pairs.any (fun pr =>
          ¬ almostEqual pr.1.p.1 pr.2.p.1 (1 / 50) ∧
          ¬ almostEqual pr.1.p.2 pr.2.p.2 (1 / 50)) then
        c.setPath [q, (q :: rest).getLast (by simp)]
      else c
  else c

/-- updatePathEnds (lines 1613-1686), parameterized by the mode-specific
absolute-path production gen (the straight/orthogonal/curve generators plus,
for curve mode, the control-point smoothing applied between generation and
write-back). -/
def updatePathEndsWith (gen : Conn K → List (PointLocation K))
    (boundOf : List (PointLocation K) → Bound K) (c : Conn K) : Conn K :=
  let c0 :=
    if c.modeUpdating ∧ c.mode = ConnectorMode.Orthogonal then
      resetPathIfNotOrthogonal c
    else c
  updatePathEndsCore boundOf (gen c0) c0

/-- _addPointIntoCurvePath (lines 1258-1286): insert the cubic Bezier
midpoint (De Casteljau at t = 0.5, using the neighbors' absolute out/in
control points) at a strictly interior index; otherwise return the absolute
path unchanged. -/
def addPointIntoCurvePath (c : Conn K) (insertIndex : ℤ) :
    List (PointLocation K) :=
  let absolutePath := c.absolutePath
  if insertIndex < 1 ∨ insertIndex > (absolutePath.length : ℤ) - 1 then
    absolutePath
  else
    let i := insertIndex.toNat
    let before := absolutePath.getD (i - 1) default
    let after := absolutePath.getD i default
    let centerVec := Vec.lrpCubic before.p before.absOut after.absIn after.p (1 / 2)
    absolutePath.take i ++ [PointLocation.fromVec centerVec] ++ absolutePath.drop i

/-- _addPointIntoStraightPath (lines 1288-1310): insert the linear midpoint at
a strictly interior index; otherwise return the absolute path unchanged. -/
def addPointIntoStraightPath (c : Conn K) (insertIndex : ℤ) :
    List (PointLocation K) :=
  let absolutePath := c.absolutePath
  if insertIndex < 1 ∨ insertIndex > (absolutePath.length : ℤ) - 1 then
    absolutePath
  else
    let i := insertIndex.toNat
    let before := absolutePath.getD (i - 1) default
    let after := absolutePath.getD i default
    let centerVec := Vec.lrp before.p after.p (1 / 2)
    absolutePath.take i ++ [PointLocation.fromVec centerVec] ++ absolutePath.drop i

/-- Axis projection of a vector: 0 selects x, anything else y (the source
indexes points by the computed line direction 0/1). -/
def coordAt (v : K × K) (dir : Nat) : K := if dir = 0 then v.1 else v.2

/-- The line direction test of _removeExtraPointsOnOneLine: 0 when the two
points' x coordinates are strictly equal, otherwise 1. -/
def dirOf (cur prev : PointLocation K) : Nat := if cur.p.1 = prev.p.1 then 0 else 1

/-- The scan loop of _removeExtraPointsOnOneLine (lines 1451-1459): prev is
the previous path point, lastOL the point at lastIndexOnLine, dir the current
line direction; a point within 0.05 of prev along dir extends the current run,
otherwise the run's last point is emitted and a new run starts. -/
def removeExtraGo (prev lastOL : PointLocation K) (dir : Nat) :
    List (PointLocation K) → List (PointLocation K)
  | [] => [lastOL]
  | q :: tl =>
    if almostEqual (coordAt q.p dir) (coordAt prev.p dir) (1 / 20) then
      removeExtraGo q q dir tl
    else lastOL :: removeExtraGo q q (dirOf q prev) tl

/-- _removeExtraPointsOnOneLine (lines 1444-1462): collapse runs of points
that stay within tolerance 0.05 along the current line direction, keeping each
run's last point; paths of fewer than three points are returned unchanged. -/
def removeExtraPointsOnOneLine : List (PointLocation K) → List (PointLocation K)
  | p0 :: p1 :: p2 :: rest => p0 :: removeExtraGo p1 p1 (dirOf p0 p1) (p2 :: rest)
  | path => path

/-- removeExtraPoints (lines 1579-1604): only in orthogonal mode; collapse the
absolute path, recompute the bound (point bound, since the mode is orthogonal)
and rewrite xywh (when changed) and the serialized points. -/
def removeExtraPoints (c : Conn K) : Conn K :=
  if c.mode ≠ ConnectorMode.Orthogonal then c
  else
    let absolutePath := removeExtraPointsOnOneLine c.absolutePath
    let r := getNewBound getBoundFromPoints absolutePath
    let c1 := if r.1 ≠ c.xywh then { c with xywh := r.1 } else c
    c1.setPoints r.2.2

/-- JS optional indexing absolutePath[j]?.[k]: none for a negative or
out-of-range index. -/
def pAt (path : List (PointLocation K)) (j : ℤ) : Option (PointLocation K) :=
  if j < 0 then none else path[j.toNat]?

/-- Write one coordinate of a point, selected by the 0/1 direction. -/
def setCoordP (pt : PointLocation K) (dir : Nat) (v : K) : PointLocation K :=
  if dir = 0 then { pt with p := (v, pt.p.2) } else { pt with p := (pt.p.1, v) }

/-- setFreezedAxis(freezedAxis.x || dir === 0, freezedAxis.y || dir === 1). -/
def freezeDir (pt : PointLocation K) (dir : Nat) : PointLocation K :=
  { pt with
    freezedX := pt.freezedX || decide (dir = 0)
    freezedY := pt.freezedY || decide (dir = 1) }

/-- The moving direction of _moveOrthogonalPoint: 0 when the moved segment's
endpoints share their x coordinate (before[0] === after[0]), else 1. -/
def movingDirOf (path : List (PointLocation K)) (i : Nat) : Nat :=
  if (path.getD i default).p.1 = (path.getD (i + 1) default).p.1 then 0 else 1

/-- beforeLineDir (lines 2081-2085): direction of the next-but-one segment on
the before side; JS === on two optionally-absent x coordinates. -/
def beforeLineDirOf (path : List (PointLocation K)) (i : Nat) : Nat :=
  if (pAt path ((i : ℤ) - 2)).map (fun q => q.p.1) =
      (pAt path ((i : ℤ) - 1)).map (fun q => q.p.1) then 0 else 1

/-- afterLineDir (lines 2086-2090). -/
def afterLineDirOf (path : List (PointLocation K)) (i : Nat) : Nat :=
  if (pAt path ((i : ℤ) + 2)).map (fun q => q.p.1) =
      (pAt path ((i : ℤ) + 3)).map (fun q => q.p.1) then 0 else 1

/-- beforeLineDirValue (lines 2091-2092). -/
def beforeLineValOf (path : List (PointLocation K)) (i : Nat) : Option K :=
  (pAt path ((i : ℤ) - 2)).map (fun q => coordAt q.p (beforeLineDirOf path i))

/-- afterLineDirValue (line 2093). -/
def afterLineValOf (path : List (PointLocation K)) (i : Nat) : Option K :=
  (pAt path ((i : ℤ) + 2)).map (fun q => coordAt q.p (afterLineDirOf path i))

/-- The final coordinate written to the two points adjacent to the moved
segment (lines 2095-2109): the raw moving-axis coordinate, snapped first to
the before-side value and then (overriding) to the after-side value whenever
the moving direction matches and the distance is below 10; a comparison with
an absent value (NaN) never snaps. -/
def movedCoordOf (path : List (PointLocation K)) (i : Nat) (pt : K × K) : K :=
  let d := movingDirOf path i
  let v := coordAt pt d
  let w1 :=
    match beforeLineValOf path i with
    | some bv => if d = beforeLineDirOf path i ∧ |v - bv| < 10 then bv else v
    | none => v
  match afterLineValOf path i with
  | some av => if d = afterLineDirOf path i ∧ |v - av| < 10 then av else w1
  | none => w1

/-- The interior branch of _moveOrthogonalPoint (lines 1991-2112 for
0 < movingIndex < length - 2): both endpoints of the moved segment receive the
(possibly snapped) moving-axis coordinate and have that axis frozen; the
returned index is unchanged.  The endpoint branches (movingIndex 0 or
length - 2), which re-route through the orthogonal router, are outside this
definition and its theorems. -/
def moveOrthogonalPointInterior (path : List (PointLocation K)) (i : Nat)
    (pt : K × K) : List (PointLocation K) × Nat :=
  let d := movingDirOf path i
  let v := coordAt pt d
  let w := movedCoordOf path i pt
  let before1 := freezeDir (setCoordP (path.getD i default) d v) d
  let after1 := freezeDir (setCoordP (path.getD (i + 1) default) d v) d
  ((path.set i (setCoordP before1 d w)).set (i + 1) (setCoordP after1 d w), i)

/-- The claim's before-side snap condition: the new coordinate along the
moving axis is within 10 of the before-side next-but-one segment's value on
that axis. -/
def snapBeforeCond (path : List (PointLocation K)) (i : Nat) (pt : K × K) :
    Prop :=
  ∃ bv, beforeLineValOf path i = some bv ∧
    movingDirOf path i = beforeLineDirOf path i ∧
    |coordAt pt (movingDirOf path i) - bv| < 10

/-- The after-side snap condition. -/
def snapAfterCond (path : List (PointLocation K)) (i : Nat) (pt : K × K) :
    Prop :=
  ∃ av, afterLineValOf path i = some av ∧
    movingDirOf path i = afterLineDirOf path i ∧
    |coordAt pt (movingDirOf path i) - av| < 10

/-- hasRelatedElement (lines 2375-2387): false when either endpoint references
an id the element getter cannot resolve. -/
def hasRelatedElement (getEl : String → Option (Elem K)) (c : Conn K) : Bool :=
  let badSource := match c.source.id with
    | some i => (getEl i).isNone
    | none => false
  let badTarget := match c.target.id with
    | some i => (getEl i).isNone
    | none => false
  !(badSource || badTarget)

/-- shouldUpdateConnectorPath (surface middleware): each endpoint must either
reference a resolvable element or carry an explicit position. -/
def shouldUpdateConnectorPath (hasEl : String → Bool) (c : Conn K) : Bool :=
  (match c.source.id with
    | some i => hasEl i
    | none => c.source.position.isSome) &&
  (match c.target.id with
    | some i => hasEl i
    | none => c.target.position.isSome)

/-- updateConnectorPoints of the surface middleware: run updatePathEnds only
when shouldUpdateConnectorPath holds, otherwise leave the connector as is. -/
def updateConnectorPoints (gen : Conn K → List (PointLocation K))
    (boundOf : List (PointLocation K) → Bound K) (hasEl : String → Bool)
    (c : Conn K) : Conn K :=
  if shouldUpdateConnectorPath hasEl c then updatePathEndsWith gen boundOf c
  else c

end Scalar

section Dedup

variable {K : Type} [LinearOrderedField K] [FloorRing K] [DecidableEq K]

/-- Modelled from the spec: downscalePrecision (lines 466-472) rounds both
coordinates to two decimals, Number(x.toFixed(2)), keeping the priority slot
(JS toFixed rounds to the nearest hundredth, ties towards the larger value,
matching round). -/
def downscalePrecision (p : K × K × K) : K × K × K :=
  (((round (p.1 * 100) : ℤ) : K) / 100, ((round (p.2.1 * 100) : ℤ) : K) / 100,
    p.2.2)

/-- The x-snapping scan of removeDulicatePoints (lines 666-672): for indices
1 to length - 2, a point whose x is within 0.02 of its (possibly already
snapped) predecessor's x is given exactly that x; the last element is not
visited. -/
def snapGo0 (prev : K × K × K) : List (K × K × K) → List (K × K × K)
  | [] => []
  | [q] => [q]
  | q :: t :: tl =>
    let q' := if almostEqual q.1 prev.1 (1 / 50) then (prev.1, q.2.1, q.2.2) else q
    q' :: snapGo0 q' (t :: tl)

/-- The x-snapping pass over the whole list. -/
def snapPass0 : List (K × K × K) → List (K × K × K)
  | [] => []
  | q :: tl => q :: snapGo0 q tl

/-- The y-snapping scan (lines 673-680), same shape on the y coordinate. -/
def snapGo1 (prev : K × K × K) : List (K × K × K) → List (K × K × K)
  | [] => []
  | [q] => [q]
  | q :: t :: tl =>
    let q' := if almostEqual q.2.1 prev.2.1 (1 / 50) then (q.1, prev.2.1, q.2.2)
      else q
    q' :: snapGo1 q' (t :: tl)

/-- The y-snapping pass over the whole list. -/
def snapPass1 : List (K × K × K) → List (K × K × K)
  | [] => []
  | q :: tl => q :: snapGo1 q tl

/-- The duplicate-collapsing scan (lines 688-700): a point whose two
coordinates are both within 0.02 of the previously kept point is merged with
it, keeping the copy of higher priority; after each removal the scan resumes
comparing the kept point with the next element. -/
def dedupGo (prev : K × K × K) : List (K × K × K) → List (K × K × K)
  | [] => [prev]
  | q :: tl =>
    if almostEqual q.1 prev.1 (1 / 50) ∧ almostEqual q.2.1 prev.2.1 (1 / 50) then
      if q.2.2 ≤ prev.2.2 then dedupGo prev tl else dedupGo q tl
    else prev :: dedupGo q tl

/-- The duplicate-collapsing pass over the whole list. -/
def dedupPass : List (K × K × K) → List (K × K × K)
  | [] => []
  | q :: tl => dedupGo q tl

/-- Sort ascending by x (JS sort((a, b) => a[0] - b[0])). -/
def sortByX (l : List (K × K × K)) : List (K × K × K) :=
  l.mergeSort (fun a b => decide (a.1 ≤ b.1))

/-- Sort ascending by y. -/
def sortByY (l : List (K × K × K)) : List (K × K × K) :=
  l.mergeSort (fun a b => decide (a.2.1 ≤ b.2.1))

/-- The lexicographic comparator of the final sort (lines 681-687). -/
def lexLe (a b : K × K) : Bool :=
  decide (a.1 < b.1 ∨ (a.1 = b.1 ∧ a.2 ≤ b.2))

/-- Sort lexicographically by x then y. -/
def sortLex (l : List (K × K × K)) : List (K × K × K) :=
  l.mergeSort (fun a b => lexLe (a.1, a.2.1) (b.1, b.2.1))

/-- removeDulicatePoints (lines 662-702): round, sort and snap along x, sort
and snap along y, sort lexicographically and collapse near-duplicates keeping
the higher priority. -/
def removeDulicatePoints (pts : List (K × K × K)) : List (K × K × K) :=
  dedupPass (sortLex (snapPass1 (sortByY (snapPass0 (sortByX
    (pts.map downscalePrecision))))))

/-- The coordinate key of a candidate point (the source builds the string
point[0] + ',' + point[1]; number-to-string is injective, so equal keys are
exactly equal coordinate pairs). -/
def keyOf (p : K × K × K) : K × K := (p.1, p.2.1)

/-- The adjacent-equality scan over the sorted key list (lines 786-791). -/
def adjEq : List (K × K) → Bool
  | a :: b :: tl => decide (a = b) || adjEq (b :: tl)
  | _ => false

/-- The duplicate detection of getConnectablePoints (lines 785-791): sort the
coordinate keys (the source sorts their strings; any total order makes equal
keys adjacent) and look for an equal adjacent pair. -/
def hasDuplicateKey (pts : List (K × K × K)) : Bool :=
  adjEq ((pts.map keyOf).mergeSort lexLe)

/-- The throw of line 789, modelled as Except: abort with the diagnostic
rather than silently keeping one of the duplicates. -/
def checkDuplicate (pts : List (K × K × K)) : Except String (List (K × K × K)) :=
  if hasDuplicateKey pts then Except.error "duplicate point" else Except.ok pts

/-- The deduplication-and-check tail of getConnectablePoints (lines 783-801),
taking the generated raw candidate list as input. -/
def getConnectablePointsChecked (raw : List (K × K × K)) :
    Except String (List (K × K × K)) :=
  checkDuplicate (removeDulicatePoints raw)

end Dedup

section AnchorPair

/-- Modelled from the spec: Vec.dist, the Euclidean distance (shared utility,
not under src), here on rational points. -/
noncomputable def Vec.dist (a b : ℚ × ℚ) : ℝ :=
  Real.sqrt ((Vec.distSq a b : ℚ) : ℝ)

/-- Exact rational decision of sqrt s + c < sqrt m (for 0 ≤ s, 0 ≤ c): the
comparison dist + 0.1 < minDist of the anchor-pair loop, carried out on the
squared distances so the loop stays executable. -/
def sqrtAddLtSqrt (s c m : ℚ) : Bool :=
  decide (0 < m - s - c ^ 2) && decide (4 * c ^ 2 * s < (m - s - c ^ 2) ^ 2)

/-- Correctness of the exact comparison against the real square root. -/
theorem sqrtAddLtSqrt_correct (s c m : ℚ) (hs : 0 ≤ s) (hc : 0 ≤ c) :
    sqrtAddLtSqrt s c m = true ↔
      Real.sqrt ((s : ℚ) : ℝ) + (c : ℝ) < Real.sqrt ((m : ℚ) : ℝ) := by
  have hs' : (0 : ℝ) ≤ (s : ℝ) := by exact_mod_cast hs
  have hc' : (0 : ℝ) ≤ (c : ℝ) := by exact_mod_cast hc
  have hS : (0 : ℝ) ≤ Real.sqrt (s : ℝ) := Real.sqrt_nonneg _
  have hx : (0 : ℝ) ≤ Real.sqrt (s : ℝ) + (c : ℝ) := by linarith
  have hsq : Real.sqrt (s : ℝ) ^ 2 = (s : ℝ) := Real.sq_sqrt hs'
  rw [Real.lt_sqrt hx]
  have hexpand : (Real.sqrt (s : ℝ) + (c : ℝ)) ^ 2 =
      (s : ℝ) + 2 * (c : ℝ) * Real.sqrt (s : ℝ) + (c : ℝ) ^ 2 := by
    ring_nf
    nlinarith [hsq]
  rw [hexpand]
  simp only [sqrtAddLtSqrt, Bool.and_eq_true, decide_eq_true_eq]
  constructor
  · rintro ⟨hd, hq⟩
    have hd' : (0 : ℝ) < (m : ℝ) - (s : ℝ) - (c : ℝ) ^ 2 := by exact_mod_cast hd
    have hq' : 4 * (c : ℝ) ^ 2 * (s : ℝ) <
        ((m : ℝ) - (s : ℝ) - (c : ℝ) ^ 2) ^ 2 := by exact_mod_cast hq
    -- conclude 2 c sqrt s < m - s - c ^ 2
    nlinarith [hsq, hS, Real.sqrt_nonneg ((s : ℚ) : ℝ), sq_nonneg
      (Real.sqrt (s : ℝ) * 2 * (c : ℝ) - ((m : ℝ) - (s : ℝ) - (c : ℝ) ^ 2))]
  · intro hlt
    have h2cs : 2 * (c : ℝ) * Real.sqrt (s : ℝ) <
        (m : ℝ) - (s : ℝ) - (c : ℝ) ^ 2 := by linarith
    have h2cs0 : (0 : ℝ) ≤ 2 * (c : ℝ) * Real.sqrt (s : ℝ) := by positivity
    have hd' : (0 : ℝ) < (m : ℝ) - (s : ℝ) - (c : ℝ) ^ 2 := lt_of_le_of_lt h2cs0 h2cs
    refine ⟨by exact_mod_cast hd', ?_⟩
    have : (2 * (c : ℝ) * Real.sqrt (s : ℝ)) ^ 2 <
        ((m : ℝ) - (s : ℝ) - (c : ℝ) ^ 2) ^ 2 := by
      have := mul_self_lt_mul_self h2cs0 h2cs
      nlinarith [this]
    have hsqv : (2 * (c : ℝ) * Real.sqrt (s : ℝ)) ^ 2 =
        4 * (c : ℝ) ^ 2 * (s : ℝ) := by
      nlinarith [hsq]
    rw [hsqv] at this
    exact_mod_cast this

/-- One step of the closest-anchor-pair loop (lines 1789-1798): the candidate
pair replaces the selection when its distance plus 0.1 is still below the
selected distance (minDist starts at Infinity, modelled by none); the minimal
distance is stored as its square. -/
def selectStep (st : ((ℚ × ℚ) × (ℚ × ℚ)) × Option ℚ)
    (pr : (ℚ × ℚ) × (ℚ × ℚ)) : ((ℚ × ℚ) × (ℚ × ℚ)) × Option ℚ :=
  match st.2 with
  | none => (pr, some (Vec.distSq pr.1 pr.2))
  | some m =>
    if sqrtAddLtSqrt (Vec.distSq pr.1 pr.2) (1 / 10) m then
      (pr, some (Vec.distSq pr.1 pr.2))
    else st

/-- The double anchor loop of _computeStartEndPoint (lines 1781-1800): every
pair (one start anchor, one end anchor) in enumeration order, the selection
starting at the origin pair with infinite distance. -/
def selectClosestPair (sas eas : List (ℚ × ℚ)) :
    ((ℚ × ℚ) × (ℚ × ℚ)) × Option ℚ :=
  (sas.flatMap (fun sa => eas.map (fun ea => (sa, ea)))).foldl selectStep
    (((0, 0), (0, 0)), none)

end AnchorPair

section Geometry

variable {K : Type} [LinearOrderedField K] [DecidableEq K]

/-- Modelled from the spec: Bound.expand(l, t, r, b) grows the rectangle on
each side. -/
def Bound.expand4 (b : Bound K) (l t r bo : K) : Bound K :=
  ⟨b.x - l, b.y - t, b.w + l + r, b.h + t + bo⟩

/-- Bound.expand(m): all four sides by the same amount. -/
def Bound.expand1 (b : Bound K) (m : K) : Bound K := Bound.expand4 b m m m m

/-- Modelled from the spec: Bound.isPointInBound(point, tolerance = 0.01),
strict containment widened by the tolerance. -/
def Bound.isPointInBound (b : Bound K) (p : K × K) (tol : K) : Prop :=
  b.x - tol < p.1 ∧ p.1 < b.maxX + tol ∧ b.y - tol < p.2 ∧ p.2 < b.maxY + tol

instance (b : Bound K) (p : K × K) (tol : K) :
    Decidable (b.isPointInBound p tol) := by
  unfold Bound.isPointInBound
  infer_instance

/-- Top edge segment. -/
def Bound.upperLine (b : Bound K) : (K × K) × (K × K) :=
  ((b.x, b.y), (b.maxX, b.y))

/-- Bottom edge segment. -/
def Bound.lowerLine (b : Bound K) : (K × K) × (K × K) :=
  ((b.x, b.maxY), (b.maxX, b.maxY))

/-- Left edge segment. -/
def Bound.leftLine (b : Bound K) : (K × K) × (K × K) :=
  ((b.x, b.y), (b.x, b.maxY))

/-- Right edge segment. -/
def Bound.rightLine (b : Bound K) : (K × K) × (K × K) :=
  ((b.maxX, b.y), (b.maxX, b.maxY))

/-- Horizontal center line. -/
def Bound.horizontalLine (b : Bound K) : (K × K) × (K × K) :=
  ((b.x, b.y + b.h / 2), (b.maxX, b.y + b.h / 2))

/-- Vertical center line. -/
def Bound.verticalLine (b : Bound K) : (K × K) × (K × K) :=
  ((b.x + b.w / 2, b.y), (b.x + b.w / 2, b.maxY))

/-- The four corners. -/
def Bound.corners (b : Bound K) : List (K × K) :=
  [(b.x, b.y), (b.maxX, b.y), (b.maxX, b.maxY), (b.x, b.maxY)]

/-- Corners and edge midpoints (Bound.getVerticesAndMidpoints). -/
def Bound.getVerticesAndMidpoints (b : Bound K) : List (K × K) :=
  b.corners ++
    [((b.x + b.maxX) / 2, b.y), (b.maxX, (b.y + b.maxY) / 2),
     ((b.x + b.maxX) / 2, b.maxY), (b.x, (b.y + b.maxY) / 2)]

/-- Bound.unite: the bounding box of the union. -/
def Bound.unite (b1 b2 : Bound K) : Bound K :=
  let x := min b1.x b2.x
  let y := min b1.y b2.y
  ⟨x, y, max b1.maxX b2.maxX - x, max b1.maxY b2.maxY - y⟩

/-- Bound.include(point): grow the box to contain the point. -/
def Bound.includePoint (b : Bound K) (p : K × K) : Bound K :=
  let x := min b.x p.1
  let y := min b.y p.2
  ⟨x, y, max b.maxX p.1 - x, max b.maxY p.2 - y⟩

/-- Bound.fromPoints: the bounding box of a nonempty vector list. -/
def boundFromVecs : List (K × K) → Bound K
  | [] => ⟨0, 0, 0, 0⟩
  | q :: rest =>
    let minX := rest.foldl (fun a r => min a r.1) q.1
    let minY := rest.foldl (fun a r => min a r.2) q.2
    let maxX := rest.foldl (fun a r => max a r.1) q.1
    let maxY := rest.foldl (fun a r => max a r.2) q.2
    ⟨minX, minY, maxX - minX, maxY - minY⟩

/-- Modelled from the spec: isOverlap(line1, line2, dir, strict) checks
whether the two segments' projections on the given axis overlap. -/
def isOverlap (l1 l2 : (K × K) × (K × K)) (dir : Nat) (strict : Bool) : Prop :=
  let a1 := if dir = 0 then min l1.1.1 l1.2.1 else min l1.1.2 l1.2.2
  let a2 := if dir = 0 then max l1.1.1 l1.2.1 else max l1.1.2 l1.2.2
  let b1 := if dir = 0 then min l2.1.1 l2.2.1 else min l2.1.2 l2.2.2
  let b2 := if dir = 0 then max l2.1.1 l2.2.1 else max l2.1.2 l2.2.2
  if strict then max a1 b1 < min a2 b2 else max a1 b1 ≤ min a2 b2

instance (l1 l2 : (K × K) × (K × K)) (dir : Nat) (strict : Bool) :
    Decidable (isOverlap l1 l2 dir strict) := by
  unfold isOverlap
  dsimp only
  split <;> infer_instance

/-- Modelled from the spec: lineIntersects(sp, ep, sp2, ep2, infinite) — the
intersection point of the two segments (or of their infinite extensions),
none when parallel or out of range. -/
def lineIntersects (sp ep sp2 ep2 : K × K) (infinite : Bool) :
    Option (K × K) :=
  let d1 := (ep.1 - sp.1, ep.2 - sp.2)
  let d2 := (ep2.1 - sp2.1, ep2.2 - sp2.2)
  let denom := d1.1 * d2.2 - d1.2 * d2.1
  if denom = 0 then none
  else
    let t := ((sp2.1 - sp.1) * d2.2 - (sp2.2 - sp.2) * d2.1) / denom
    let s := ((sp2.1 - sp.1) * d1.2 - (sp2.2 - sp.2) * d1.1) / denom
    if infinite ∨ (0 ≤ t ∧ t ≤ 1 ∧ 0 ≤ s ∧ s ≤ 1) then
      some (sp.1 + t * d1.1, sp.2 + t * d1.2)
    else none

/-- Modelled from the spec: Math.sign. -/
def signK (x : K) : K := if x < 0 then -1 else if 0 < x then 1 else 0

/-- getDirectPath (lines 804-815): when the two points already share a
coordinate (within 0.02) connect them directly, otherwise insert one elbow
vertically below the start. -/
def getDirectPath (s e : K × K) : List (K × K) :=
  if almostEqual s.1 e.1 (1 / 50) ∨ almostEqual s.2 e.2 (1 / 50) then [s, e]
  else [s, (s.1, s.2 + (e.2 - s.2)), e]

/-- The interior filter of mergePath (lines 820-835): an interior point whose
x (or y) agrees within 0.02 with both the original predecessor and the
successor is dropped; the input's last point is always appended. -/
def mergeInner (prev : K × K) : List (K × K) → List (K × K)
  | [] => []
  | [lastp] => [lastp]
  | cur :: next :: tl =>
    if (almostEqual prev.1 cur.1 (1 / 50) ∧ almostEqual cur.1 next.1 (1 / 50)) ∨
        (almostEqual prev.2 cur.2 (1 / 50) ∧ almostEqual cur.2 next.2 (1 / 50))
      then mergeInner cur (next :: tl)
    else cur :: mergeInner cur (next :: tl)

/-- mergePath (lines 817-852).  (The trailing assertion loop only logs a
warning and does not change the result.)  On a one-point input the source
appends the last point again, yielding [p, p]. -/
def mergePath : List (K × K) → List (K × K)
  | [] => []
  | [p0] => [p0, p0]
  | p0 :: tl => p0 :: mergeInner p0 tl

end Geometry

section Router

/-- Modelled from the spec: Vec.uni / Vec.normalize, the unit vector (shared
utility, not under src).  The zero vector is mapped to itself (the source
would produce NaN components; the branch is unreachable in the uses below). -/
noncomputable def Vec.uniR (v : ℝ × ℝ) : ℝ × ℝ :=
  let len := Real.sqrt (v.1 ^ 2 + v.2 ^ 2)
  if len = 0 then (0, 0) else (v.1 / len, v.2 / len)

/-- Modelled from the spec: Vec.nearestPointOnLineSegment(a, b, p, clamp) —
the orthogonal projection of p on the line through a and b, clamped into the
segment when requested. -/
noncomputable def nearestPointOnLineSegment (a b p : ℝ × ℝ) (clamp : Bool) :
    ℝ × ℝ :=
  let d := Vec.sub b a
  let len2 := d.1 ^ 2 + d.2 ^ 2
  if len2 = 0 then a
  else
    let t := ((p.1 - a.1) * d.1 + (p.2 - a.2) * d.2) / len2
    let t' := if clamp then max 0 (min 1 t) else t
    (a.1 + t' * d.1, a.2 + t' * d.2)

/-- Modelled from the spec: Vec.distanceToLineSegment(a, b, p, clamp), the
Euclidean distance from p to its nearest point on the (possibly unclamped)
segment. -/
noncomputable def distanceToLineSegment (a b p : ℝ × ℝ) (clamp : Bool) : ℝ :=
  let q := nearestPointOnLineSegment a b p clamp
  Real.sqrt ((p.1 - q.1) ^ 2 + (p.2 - q.2) ^ 2)

/-- computeOffset (lines 854-913): each side's clearance starts at 20 and is
shrunk to half the distance between facing edges when the bounds face each
other on that side; the final block merges start and end offsets side by
side, mapping a zero minimum back to 20.  (The end offsets are untouched
before the merge, so the minima are against 20.) -/
noncomputable def computeOffset (startBound endBound : Option (Bound ℝ)) :
    (ℝ × ℝ × ℝ × ℝ) × (ℝ × ℝ × ℝ × ℝ) :=
  match startBound, endBound with
  | some sb, some eb =>
    let s0 : ℝ := 20
    let s1 : ℝ :=
      if isOverlap sb.upperLine eb.lowerLine 0 false ∧
          sb.upperLine.1.2 > eb.lowerLine.1.2 then
        max (min
          (distanceToLineSegment sb.upperLine.1 sb.upperLine.2 eb.lowerLine.1
            false / 2) 20) 0
      else 20
    let s2 : ℝ :=
      if isOverlap sb.rightLine eb.leftLine 1 false ∧
          sb.rightLine.1.1 < eb.leftLine.1.1 then
        max (min
          (distanceToLineSegment sb.rightLine.1 sb.rightLine.2 eb.leftLine.1
            false / 2) 20) 0
      else 20
    let s3 : ℝ :=
      if isOverlap sb.lowerLine eb.upperLine 0 false ∧
          sb.lowerLine.1.2 < eb.upperLine.1.2 then
        max (min
          (distanceToLineSegment sb.lowerLine.1 sb.lowerLine.2 eb.upperLine.1
            false / 2) 20) 0
      else 20
    let m0 := if min s0 20 = 0 then 20 else min s0 20
    let m1 := if min s1 20 = 0 then 20 else min s1 20
    let m2 := if min s2 20 = 0 then 20 else min s2 20
    let m3 := if min s3 20 = 0 then 20 else min s3 20
    ((m0, m1, m2, m3), (m2, m3, m0, m1))
  | _, _ => ((20, 20, 20, 20), (20, 20, 20, 20))

/-- getNextPoint (lines 915-979): push the endpoint off the edge of its bound
it sits on (almostEqual with the default epsilon 0.0001); otherwise probe
towards the nearer edge along the dominant tangent axis.  The source asserts
the probe intersection exists; the none branches keep the point unchanged and
are unreachable in the uses below. -/
noncomputable def getNextPoint (bound : Bound ℝ) (point : PointLocation ℝ)
    (offsetX offsetY offsetW offsetH : ℝ) : ℝ × ℝ :=
  let r := point.p
  if almostEqual bound.x r.1 (1 / 10000) then (r.1 - offsetX, r.2)
  else if almostEqual bound.y r.2 (1 / 10000) then (r.1, r.2 - offsetY)
  else if almostEqual bound.maxX r.1 (1 / 10000) then (r.1 + offsetW, r.2)
  else if almostEqual bound.maxY r.2 (1 / 10000) then (r.1, r.2 + offsetH)
  else
    let direction := Vec.uniR (Vec.sub r bound.center)
    let xDirection : ℝ := if direction.1 > 0 then 1 else -1
    let yDirection : ℝ := if direction.2 > 0 then 1 else -1
    let slope : Nat := if |point.tangent.1| < |point.tangent.2| then 0 else 1
    if slope = 0 then
      if xDirection > 0 then
        match lineIntersects bound.rightLine.1 bound.rightLine.2 r
            (bound.maxX + 10, r.2) false with
        | some its => (its.1 + offsetX, r.2)
        | none => r
      else
        match lineIntersects bound.leftLine.1 bound.leftLine.2 r
            (bound.x - 10, r.2) false with
        | some its => (its.1 - offsetX, r.2)
        | none => r
    else
      if yDirection > 0 then
        match lineIntersects bound.lowerLine.1 bound.lowerLine.2 r
            (r.1, bound.maxY + 10) false with
        | some its => (r.1, its.2 + offsetY)
        | none => r
      else
        match lineIntersects bound.upperLine.1 bound.upperLine.2 r
            (r.1, bound.y - 10) false with
        | some its => (r.1, its.2 - offsetY)
        | none => r

/-- computeNextStartEndpoint (lines 982-1012): push each endpoint off its
bound by the computed offsets; endpoints without a bound stay in place. -/
noncomputable def computeNextStartEndpoint (startPoint endPoint : PointLocation ℝ)
    (startBound endBound : Option (Bound ℝ))
    (startOffset endOffset : ℝ × ℝ × ℝ × ℝ) : (ℝ × ℝ) × (ℝ × ℝ) :=
  (match startBound with
   | some sb =>
     getNextPoint sb startPoint startOffset.1 startOffset.2.1
       startOffset.2.2.1 startOffset.2.2.2
   | none => startPoint.p,
   match endBound with
   | some eb =>
     getNextPoint eb endPoint endOffset.1 endOffset.2.1 endOffset.2.2.1
       endOffset.2.2.2
   | none => endPoint.p)

/-- adjustStartEndPoint (lines 1014-1038), functionally: a bound-less
endpoint is pushed 20 units further out along the dominant axis of the
start-to-end vector; the end point is moved first and the start adjustment
reads the moved end point (the source mutates in this order). -/
noncomputable def adjustStartEndPoint (s e : ℝ × ℝ × ℝ)
    (startBound endBound : Option (Bound ℝ)) : (ℝ × ℝ × ℝ) × (ℝ × ℝ × ℝ) :=
  let e' := if endBound.isNone then
      if |e.1 - s.1| > |e.2.1 - s.2.1| then
        (e.1 + signK (e.1 - s.1) * 20, e.2.1, e.2.2)
      else (e.1, e.2.1 + signK (e.2.1 - s.2.1) * 20, e.2.2)
    else e
  let s' := if startBound.isNone then
      if |e'.1 - s.1| > |e'.2.1 - s.2.1| then
        (s.1 - signK (e'.1 - s.1) * 20, s.2.1, s.2.2)
      else (s.1, s.2.1 - signK (e'.2.1 - s.2.1) * 20, s.2.2)
    else s
  (s', e')

/-- filterConnectablePoints (lines 474-482): drop candidates inside the given
bound (isPointInBound with the default tolerance 0.01); without a bound keep
everything. -/
noncomputable def filterConnectablePoints (points : List (ℝ × ℝ × ℝ))
    (bound : Option (Bound ℝ)) : List (ℝ × ℝ × ℝ) :=
  points.filter fun p =>
    match bound with
    | none => true
    | some b => !decide (b.isPointInBound (p.1, p.2.1) (1 / 100))

/-- pushWithPriority (lines 484-486): append the vectors tagged with the
priority. -/
def pushWithPriority (points : List (ℝ × ℝ × ℝ)) (vecs : List (ℝ × ℝ))
    (priority : ℝ) : List (ℝ × ℝ × ℝ) :=
  points ++ vecs.map fun v => (v.1, v.2, priority)

/-- pushLineIntersectsToPoints (lines 488-498): append the infinite-line
intersection of the two lines, when it exists. -/
noncomputable def pushLineIntersectsToPoints (points : List (ℝ × ℝ × ℝ))
    (aLine bLine : (ℝ × ℝ) × (ℝ × ℝ)) (priority : ℝ) : List (ℝ × ℝ × ℝ) :=
  match lineIntersects aLine.1 aLine.2 bLine.1 bLine.2 true with
  | some r => pushWithPriority points [r] priority
  | none => points

/-- pushOuterPoints (lines 500-532): the outer bound's vertices, midpoints
and center, and the intersections of the expanded bounds' edge and center
lines with the outer bound's edges. -/
noncomputable def pushOuterPoints (points : List (ℝ × ℝ × ℝ))
    (expandStartBound expandEndBound outerBound : Bound ℝ) :
    List (ℝ × ℝ × ℝ) :=
  let pts1 := pushWithPriority points outerBound.getVerticesAndMidpoints 0
  let pts2 := pushWithPriority pts1 [outerBound.center] 2
  let pts3 :=
    [expandStartBound.upperLine, expandStartBound.horizontalLine,
     expandStartBound.lowerLine, expandEndBound.upperLine,
     expandEndBound.horizontalLine, expandEndBound.lowerLine].foldl
      (fun acc line =>
        pushLineIntersectsToPoints
          (pushLineIntersectsToPoints acc line outerBound.leftLine 0)
          line outerBound.rightLine 0) pts2
  [expandStartBound.leftLine, expandStartBound.verticalLine,
   expandStartBound.rightLine, expandEndBound.leftLine,
   expandEndBound.verticalLine, expandEndBound.rightLine].foldl
    (fun acc line =>
      pushLineIntersectsToPoints
        (pushLineIntersectsToPoints acc line outerBound.upperLine 0)
        line outerBound.lowerLine 0) pts3

/-- pushBoundMidPoint (lines 534-584): when the bounds are separated along an
axis, intersect the mid gap line with the expanded bounds' lines; the two
center lines get priority 6, the edge lines 3. -/
noncomputable def pushBoundMidPoint (points : List (ℝ × ℝ × ℝ))
    (bound1 bound2 expandBound1 expandBound2 : Bound ℝ) : List (ℝ × ℝ × ℝ) :=
  let pts1 := if bound1.maxX < bound2.x then
      let midX := (bound1.maxX + bound2.x) / 2
      [(expandBound1.horizontalLine, (6 : ℝ)),
       (expandBound2.horizontalLine, 6), (expandBound1.upperLine, 3),
       (expandBound1.lowerLine, 3), (expandBound2.upperLine, 3),
       (expandBound2.lowerLine, 3)].foldl
        (fun acc lp =>
          pushLineIntersectsToPoints acc lp.1 ((midX, 0), (midX, 1)) lp.2)
        points
    else points
  if bound1.maxY < bound2.y then
    let midY := (bound1.maxY + bound2.y) / 2
    [(expandBound1.verticalLine, (6 : ℝ)), (expandBound2.verticalLine, 6),
     (expandBound1.leftLine, 3), (expandBound1.rightLine, 3),
     (expandBound2.leftLine, 3), (expandBound2.rightLine, 3)].foldl
      (fun acc lp =>
        pushLineIntersectsToPoints acc lp.1 ((0, midY), (1, midY)) lp.2)
      pts1
  else pts1

/-- pushGapMidPoint (lines 586-661): when the endpoint sits on a horizontal
edge, probe vertically through both bounds' horizontal edges, take the
midpoint of the two middle intersections (priority 6) and its horizontal
line's intersections with the expanded bounds' vertical edges; symmetrically
for a vertical edge.  The four probes always intersect (the probe line is
perpendicular to the edges); a missing intersection is modelled as (0, 0). -/
noncomputable def pushGapMidPoint (points : List (ℝ × ℝ × ℝ))
    (point : ℝ × ℝ × ℝ) (bound bound2 expandBound expandBound2 : Bound ℝ) :
    List (ℝ × ℝ × ℝ) :=
  if almostEqual point.2.1 bound.y (1 / 50) ∨
      almostEqual point.2.1 bound.maxY (1 / 50) then
    let rst := [bound.upperLine, bound.lowerLine, bound2.upperLine,
        bound2.lowerLine].map fun line =>
      (lineIntersects (point.1, point.2.1) (point.1, point.2.1 + 1) line.1
        line.2 true).getD (0, 0)
    let rstS := rst.mergeSort fun a b => decide (a.2 ≤ b.2)
    let midPoint := Vec.lrp (rstS.getD 1 (0, 0)) (rstS.getD 2 (0, 0)) (1 / 2)
    let pts1 := pushWithPriority points [midPoint] 6
    [expandBound.leftLine, expandBound.rightLine, expandBound2.leftLine,
     expandBound2.rightLine].foldl
      (fun acc line =>
        pushLineIntersectsToPoints acc
          (midPoint, (midPoint.1 + 1, midPoint.2)) line 0) pts1
  else
    let rst := [bound.leftLine, bound.rightLine, bound2.leftLine,
        bound2.rightLine].map fun line =>
      (lineIntersects (point.1, point.2.1) (point.1 + 1, point.2.1) line.1
        line.2 true).getD (0, 0)
    let rstS := rst.mergeSort fun a b => decide (a.1 ≤ b.1)
    let midPoint := Vec.lrp (rstS.getD 1 (0, 0)) (rstS.getD 2 (0, 0)) (1 / 2)
    let pts1 := pushWithPriority points [midPoint] 6
    [expandBound.upperLine, expandBound.lowerLine, expandBound2.upperLine,
     expandBound2.lowerLine].foldl
      (fun acc line =>
        pushLineIntersectsToPoints acc
          (midPoint, (midPoint.1, midPoint.2 + 1)) line 0) pts1

/-- getConnectablePoints (lines 703-801): build the candidate set from the
line bound, the outer bound, the gap and bound midpoints and the expanded
bounds, deduplicate it, abort on a remaining duplicate (the source throws
'duplicate point'), and locate nextStartPoint and lastEndPoint in the final
set (the source asserts they are found; a miss is modelled as an error). -/
noncomputable def getConnectablePoints
    (startPoint endPoint nextStartPoint lastEndPoint : ℝ × ℝ × ℝ)
    (startBound endBound expandStartBound expandEndBound : Option (Bound ℝ)) :
    Except String (List (ℝ × ℝ × ℝ) × (ℝ × ℝ × ℝ) × (ℝ × ℝ × ℝ)) :=
  let lineBound := boundFromVecs
    [(startPoint.1, startPoint.2.1), (endPoint.1, endPoint.2.1)]
  let points1 := pushWithPriority [nextStartPoint, lastEndPoint]
    lineBound.getVerticesAndMidpoints 0
  let points2 := if startBound.isNone ∨ endBound.isNone then
      pushWithPriority points1 [lineBound.center] 3
    else points1
  let points3 := match expandStartBound, expandEndBound with
    | some esb, some eeb => pushOuterPoints points2 esb eeb (esb.unite eeb)
    | _, _ => points2
  let points4 := match startBound, endBound, expandStartBound,
      expandEndBound with
    | some sb, some eb, some esb, some eeb =>
      let a := pushGapMidPoint points3 startPoint sb eb esb eeb
      let b := pushGapMidPoint a endPoint eb sb eeb esb
      let c := pushBoundMidPoint b sb eb esb eeb
      pushBoundMidPoint c eb sb eeb esb
    | _, _, _, _ => points3
  let points5 := match expandStartBound with
    | some esb =>
      pushWithPriority
        (pushWithPriority points4 esb.getVerticesAndMidpoints 0)
        (esb.includePoint (lastEndPoint.1, lastEndPoint.2.1)).corners 0
    | none => points4
  let points6 := match expandEndBound with
    | some eeb =>
      pushWithPriority
        (pushWithPriority points5 eeb.getVerticesAndMidpoints 0)
        (eeb.includePoint (nextStartPoint.1, nextStartPoint.2.1)).corners 0
    | none => points5
  match getConnectablePointsChecked points6 with
  | Except.error e => Except.error e
  | Except.ok points =>
    match points.find? (fun item =>
        decide (almostEqual item.1 nextStartPoint.1 (1 / 50)) &&
        decide (almostEqual item.2.1 nextStartPoint.2.1 (1 / 50))),
      points.find? (fun item =>
        decide (almostEqual item.1 lastEndPoint.1 (1 / 50)) &&
        decide (almostEqual item.2.1 lastEndPoint.2.1 (1 / 50))) with
    | some ns, some le => Except.ok (points, ns, le)
    | _, _ => Except.error "assertExists"

/-- computePoints (lines 425-464): round the four working points, build and
check the candidate set, then drop candidates strictly inside the expanded
bounds shrunk by one. -/
noncomputable def computePoints
    (startPoint endPoint nextStartPoint lastEndPoint : ℝ × ℝ)
    (startBound endBound expandStartBound expandEndBound : Option (Bound ℝ)) :
    Except String (List (ℝ × ℝ × ℝ) × (ℝ × ℝ × ℝ) × (ℝ × ℝ × ℝ) ×
      (ℝ × ℝ × ℝ) × (ℝ × ℝ × ℝ)) :=
  let sp3 := downscalePrecision (startPoint.1, startPoint.2, 0)
  let ep3 := downscalePrecision (endPoint.1, endPoint.2, 0)
  let nsp3 := downscalePrecision (nextStartPoint.1, nextStartPoint.2, 0)
  let lep3 := downscalePrecision (lastEndPoint.1, lastEndPoint.2, 0)
  match getConnectablePoints sp3 ep3 nsp3 lep3 startBound endBound
      expandStartBound expandEndBound with
  | Except.error e => Except.error e
  | Except.ok (points, ns, le) =>
    let finalPoints := filterConnectablePoints
      (filterConnectablePoints points
        (expandStartBound.map fun b => b.expand1 (-1)))
      (expandEndBound.map fun b => b.expand1 (-1))
    Except.ok (finalPoints, sp3, ep3, ns, le)

/-- The input record of the orthogonal router. -/
structure OrthogonalConnectorInput where
  startPoint : PointLocation ℝ
  endPoint : PointLocation ℝ
  startBound : Option (Bound ℝ)
  endBound : Option (Bound ℝ)

/-- The tuple returned by _prepareOrthogonalConnectorInfo. -/
structure OrthogonalConnectorInfo where
  startPoint : ℝ × ℝ
  endPoint : ℝ × ℝ
  nextStartPoint : ℝ × ℝ
  lastEndPoint : ℝ × ℝ
  startBound : Option (Bound ℝ)
  endBound : Option (Bound ℝ)
  expandStartBound : Option (Bound ℝ)
  expandEndBound : Option (Bound ℝ)

/-- _prepareOrthogonalConnectorInfo (lines 2114-2159): offsets, pushed-off
endpoints and the bounds expanded by those offsets. -/
noncomputable def prepareOrthogonalConnectorInfo
    (ci : OrthogonalConnectorInput) : OrthogonalConnectorInfo :=
  let off := computeOffset ci.startBound ci.endBound
  let nsle := computeNextStartEndpoint ci.startPoint ci.endPoint ci.startBound
    ci.endBound off.1 off.2
  { startPoint := ci.startPoint.p
    endPoint := ci.endPoint.p
    nextStartPoint := nsle.1
    lastEndPoint := nsle.2
    startBound := ci.startBound
    endBound := ci.endBound
    expandStartBound := ci.startBound.map fun b =>
      b.expand4 off.1.1 off.1.2.1 off.1.2.2.1 off.1.2.2.2
    expandEndBound := ci.endBound.map fun b =>
      b.expand4 off.2.1 off.2.2.1 off.2.2.2.1 off.2.2.2.2 }

/-- The point is inside the optional bound with the given tolerance. -/
def optPointInBoundP (ob : Option (Bound ℝ)) (p : ℝ × ℝ) (tol : ℝ) : Prop :=
  match ob with
  | some b => b.isPointInBound p tol
  | none => False

noncomputable instance (ob : Option (Bound ℝ)) (p : ℝ × ℝ) (tol : ℝ) :
    Decidable (optPointInBoundP ob p tol) := by
  unfold optPointInBoundP
  match ob with
  | some b => exact inferInstance
  | none => exact inferInstance

/-- Manhattan length of a segment. -/
def manhattanDist (a b : ℝ × ℝ) : ℝ := |a.1 - b.1| + |a.2 - b.2|

/-- An axis-aligned open segment meets the open interior of the bound. -/
def segCrossesBound (blk : Bound ℝ) (a b : ℝ × ℝ) : Prop :=
  (a.1 = b.1 ∧ blk.x < a.1 ∧ a.1 < blk.maxX ∧
    max (min a.2 b.2) blk.y < min (max a.2 b.2) blk.maxY) ∨
  (a.2 = b.2 ∧ blk.y < a.2 ∧ a.2 < blk.maxY ∧
    max (min a.1 b.1) blk.x < min (max a.1 b.1) blk.maxX)

/-- Modelled from the spec: two candidates are connected when their segment
is axis-aligned and stays clear of the blocking bounds' interiors. -/
def edgeAllowed (blocks : List (Bound ℝ)) (a b : ℝ × ℝ) : Prop :=
  (a.1 = b.1 ∨ a.2 = b.2) ∧ ∀ blk ∈ blocks, ¬ segCrossesBound blk a b

noncomputable instance (blk : Bound ℝ) (a b : ℝ × ℝ) :
    Decidable (segCrossesBound blk a b) := by
  unfold segCrossesBound
  infer_instance

noncomputable instance (blocks : List (Bound ℝ)) (a b : ℝ × ℝ) :
    Decidable (edgeAllowed blocks a b) := by
  unfold edgeAllowed
  infer_instance

/-- One relaxation round of the shortest-path search: every node takes the
cheapest extension of any settled route over an allowed edge. -/
noncomputable def relaxOnce (blocks : List (Bound ℝ)) (xs : List (ℝ × ℝ))
    (st : List (Option (ℝ × List (ℝ × ℝ)))) :
    List (Option (ℝ × List (ℝ × ℝ))) :=
  (xs.zip st).map fun vc =>
    (xs.zip st).foldl
      (fun acc uc =>
        match uc.2 with
        | none => acc
        | some cp =>
          if edgeAllowed blocks uc.1 vc.1 then
            let cand := cp.1 + manhattanDist uc.1 vc.1
            match acc with
            | none => some (cand, vc.1 :: cp.2)
            | some ap =>
              if cand < ap.1 then some (cand, vc.1 :: cp.2) else acc
          else acc)
      vc.2

/-- Modelled from the spec: the A* search of AStarRunner (its module is not
under src).  It routes from nextStartPoint to lastEndPoint over the candidate
set, travelling only along axis-aligned segments that avoid the interiors of
the blocking bounds, minimising Manhattan length (the real runner also uses
the candidates' priorities and diagonal counts as tie-breaks, not modelled),
and returns startPoint, the route, then endPoint.  Realised as Bellman-Ford
iterated once per node; an unreachable destination falls back to the direct
hop.  expandBlocks is accepted for signature fidelity: per the spec the
route may use points of the expanded corridors, so it adds no constraint. -/
noncomputable def aStarPath (nodes : List (ℝ × ℝ × ℝ))
    (nextStart lastEnd startP endP : ℝ × ℝ × ℝ)
    (blocks _expandBlocks : List (Bound ℝ)) : List (ℝ × ℝ) :=
  let xs := nodes.map fun p => (p.1, p.2.1)
  let src := (nextStart.1, nextStart.2.1)
  let dst := (lastEnd.1, lastEnd.2.1)
  let init : List (Option (ℝ × List (ℝ × ℝ))) :=
    xs.map fun v => if v = src then some ((0 : ℝ), [v]) else none
  let final := (relaxOnce blocks xs)^[xs.length] init
  let route := match (xs.zip final).find? fun p => decide (p.1 = dst) with
    | some (_, some cp) => cp.2.reverse
    | _ => [src, dst]
  ((startP.1, startP.2.1) :: route) ++ [(endP.1, endP.2.1)]

/-- generateSmallestOrthogonalConnectorPath (lines 2312-2373): prepare the
info; if one endpoint lies in the other's bound (tolerance 0.01) or in the
expanded bound of the other side (tolerance 0), return the direct path;
otherwise build the candidate set, adjust bound-less endpoints, run the
search between the pushed-off endpoints, trim the route on bound-less sides
and merge collinear runs.  The candidate-set duplicate check's throw is
modelled as the error branch. -/
noncomputable def generateSmallestOrthogonalConnectorPath
    (input : OrthogonalConnectorInput) : Except String (List (ℝ × ℝ)) :=
  let info := prepareOrthogonalConnectorInfo input
  if optPointInBoundP info.startBound info.endPoint (1 / 100) ∧
      optPointInBoundP info.endBound info.startPoint (1 / 100) then
    Except.ok (getDirectPath info.startPoint info.endPoint)
  else if info.startBound.isSome = true ∧
      optPointInBoundP info.expandStartBound info.endPoint 0 then
    Except.ok (getDirectPath info.startPoint info.endPoint)
  else if info.endBound.isSome = true ∧
      optPointInBoundP info.expandEndBound info.startPoint 0 then
    Except.ok (getDirectPath info.startPoint info.endPoint)
  else
    let blocks := info.startBound.toList ++ info.endBound.toList
    let expandBlocks := info.expandStartBound.toList ++
      info.expandEndBound.toList
    match computePoints info.startPoint info.endPoint info.nextStartPoint
        info.lastEndPoint info.startBound info.endBound info.expandStartBound
        info.expandEndBound with
    | Except.error e => Except.error e
    | Except.ok (finalPoints, spV3, epV3, nspV3, lepV3) =>
      let adj := adjustStartEndPoint spV3 epV3 info.startBound info.endBound
      let path0 := aStarPath finalPoints nspV3 lepV3 adj.1 adj.2 blocks
        expandBlocks
      let path1 := if info.endBound.isNone then path0.dropLast else path0
      let path2 := if info.startBound.isNone then path1.drop 1 else path1
      Except.ok (mergePath path2)

/-- The strict interior of a bound. -/
def Bound.strictInterior (b : Bound ℝ) (p : ℝ × ℝ) : Prop :=
  b.x < p.1 ∧ p.1 < b.maxX ∧ b.y < p.2 ∧ p.2 < b.maxY

/-- The router input of the C3 counterexample: the start point sits on the
left edge of its bound, the end point on the left edge of a bound nested
inside the start bound's expanded corridor. -/
noncomputable def c3Input : OrthogonalConnectorInput :=
  { startPoint := PointLocation.fromVec ((0 : ℝ), 5)
    endPoint := PointLocation.fromVec ((2 : ℝ), 5)
    startBound := some ⟨0, 0, 10, 10⟩
    endBound := some ⟨2, 2, 6, 6⟩ }

end Router

/-- C2.  Serialization round-trips exactly: deserializing the serialized form
of any PointLocation (any coordinates, tangent, in/out offsets and pin flags)
yields a point equal to the original in all six components. -/
theorem pointLocation_serialization_roundtrip {K : Type} [LinearOrderedField K]
    (pt : PointLocation K) :
    PointLocation.ofXYTangentInOut (PointLocation.toXYTangentInOut pt) = pt := by
  cases pt with
  | mk p tangent inV outV fx fy =>
    cases fx <;> cases fy <;>
      simp [PointLocation.toXYTangentInOut, PointLocation.ofXYTangentInOut,
        PointLocation.mk6]

/-- C4.  Unresolvable endpoint degrades, never throws: when either endpoint
carries a shape id the element getter cannot resolve, hasRelatedElement is
false and the middleware's recompute (which runs updatePathEnds only behind
the shouldUpdateConnectorPath guard) leaves the connector, in particular its
stored path and bounding box, exactly unchanged — for every generator and
bound function. -/
theorem unresolvable_endpoint_degrades {K : Type} [LinearOrderedField K]
    [DecidableEq K] (getEl : String → Option (Elem K))
    (gen : Conn K → List (PointLocation K))
    (boundOf : List (PointLocation K) → Bound K) (c : Conn K)
    (h : (∃ s, c.source.id = some s ∧ getEl s = none) ∨
         (∃ t, c.target.id = some t ∧ getEl t = none)) :
    hasRelatedElement getEl c = false ∧
    updateConnectorPoints gen boundOf (fun i => (getEl i).isSome) c = c := by
  obtain ⟨s, hid, hget⟩ | ⟨t, hid, hget⟩ := h
  · refine ⟨?_, ?_⟩
    · simp [hasRelatedElement, hid, hget]
    · simp [updateConnectorPoints, shouldUpdateConnectorPath, hid, hget]
  · refine ⟨?_, ?_⟩
    · simp [hasRelatedElement, hid, hget]
    · simp [updateConnectorPoints, shouldUpdateConnectorPath, hid, hget]

/-- A connector whose source references a missing element. -/
def c4Conn : Conn ℚ :=
  { mode := ConnectorMode.Straight
    source := ⟨some "gone", none⟩
    target := ⟨none, some (7, 7)⟩
    xywh := ⟨0, 0, 7, 7⟩
    pathF := [PointLocation.fromVec (0, 0), PointLocation.fromVec (7, 7)]
    absolutePath := [PointLocation.fromVec (0, 0), PointLocation.fromVec (7, 7)]
    points := [(PointLocation.fromVec ((0 : ℚ), 0)).toXYTangentInOut,
               (PointLocation.fromVec ((7 : ℚ), 7)).toXYTangentInOut]
    modeUpdating := false }

/-- Witness for C4 at a concrete connector with a dangling source id. -/
theorem unresolvable_endpoint_degrades_witness :
    hasRelatedElement (fun _ => (none : Option (Elem ℚ))) c4Conn = false ∧
    updateConnectorPoints (fun _ => ([] : List (PointLocation ℚ)))
      (fun _ => (⟨0, 0, 0, 0⟩ : Bound ℚ))
      (fun i => ((fun _ => (none : Option (Elem ℚ))) i).isSome) c4Conn = c4Conn :=
  unresolvable_endpoint_degrades (fun _ => none) (fun _ => [])
    (fun _ => ⟨0, 0, 0, 0⟩) c4Conn (Or.inl ⟨"gone", rfl, rfl⟩)

/-- C10.  The write-back of updatePathEnds rewrites the persisted serialized
points only when the recomputed first or last serialized point differs from
the stored ones; when both ends are unchanged, the points field stays exactly
as it was and only the in-memory path (with its derived absolutePath,
translated by the new bound's origin) is replaced. -/
theorem updatePathEnds_points_frame {K : Type} [LinearOrderedField K]
    [DecidableEq K] (boundOf : List (PointLocation K) → Bound K)
    (absPath : List (PointLocation K)) (c : Conn K) :
    ((getNewBound boundOf absPath).2.2.head? = c.points.head? ∧
     (getNewBound boundOf absPath).2.2.getLast? = c.points.getLast? →
      (updatePathEndsCore boundOf absPath c).points = c.points ∧
      (updatePathEndsCore boundOf absPath c).pathF =
        (getNewBound boundOf absPath).2.1 ∧
      (updatePathEndsCore boundOf absPath c).absolutePath =
        (getNewBound boundOf absPath).2.1.map (fun p =>
          p.setVec (p.p.1 + (getNewBound boundOf absPath).1.x,
            p.p.2 + (getNewBound boundOf absPath).1.y))) ∧
    (¬((getNewBound boundOf absPath).2.2.head? = c.points.head? ∧
       (getNewBound boundOf absPath).2.2.getLast? = c.points.getLast?) →
      (updatePathEndsCore boundOf absPath c).points =
        (getNewBound boundOf absPath).2.2) := by
  constructor
  · rintro ⟨h1, h2⟩
    unfold updatePathEndsCore
    dsimp only
    split_ifs with hb hcond hcond
    · rcases hcond with hc | hc
      · exact absurd h1 hc
      · exact absurd h2 hc
    · simp [Conn.setPath]
    · rcases hcond with hc | hc
      · exact absurd h1 hc
      · exact absurd h2 hc
    · have hx : (getNewBound boundOf absPath).1 = c.xywh := not_not.mp hb
      simp [Conn.setPath, hx]
  · intro h
    unfold updatePathEndsCore
    dsimp only
    split_ifs with hb hcond hcond
    · simp [Conn.setPoints]
    · exact absurd ⟨not_not.mp (not_or.mp hcond).1,
        not_not.mp (not_or.mp hcond).2⟩ h
    · simp [Conn.setPoints]
    · exact absurd ⟨not_not.mp (not_or.mp hcond).1,
        not_not.mp (not_or.mp hcond).2⟩ h

/-- A connector whose stored serialized end points already match the
recomputed ones. -/
def c10Conn : Conn ℚ :=
  { mode := ConnectorMode.Straight
    source := ⟨none, some (0, 0)⟩
    target := ⟨none, some (3, 4)⟩
    xywh := ⟨5, 5, 1, 1⟩
    pathF := [PointLocation.fromVec (1, 1)]
    absolutePath := [PointLocation.fromVec (6, 6)]
    points := [(PointLocation.fromVec ((0 : ℚ), 0)).toXYTangentInOut,
               (PointLocation.fromVec ((3 : ℚ), 4)).toXYTangentInOut]
    modeUpdating := false }

/-- The recomputed absolute path used by the C10 witness. -/
def c10Abs : List (PointLocation ℚ) :=
  [PointLocation.fromVec (0, 0), PointLocation.fromVec (3, 4)]

/-- Witness for C10: with unchanged serialized end points, the points field is
untouched and only the in-memory path is replaced. -/
theorem updatePathEnds_points_frame_witness :
    (updatePathEndsCore getBoundFromPoints c10Abs c10Conn).points =
      c10Conn.points ∧
    (updatePathEndsCore getBoundFromPoints c10Abs c10Conn).pathF =
      (getNewBound getBoundFromPoints c10Abs).2.1 ∧
    (updatePathEndsCore getBoundFromPoints c10Abs c10Conn).absolutePath =
      (getNewBound getBoundFromPoints c10Abs).2.1.map (fun p =>
        p.setVec (p.p.1 + (getNewBound getBoundFromPoints c10Abs).1.x,
          p.p.2 + (getNewBound getBoundFromPoints c10Abs).1.y)) :=
  (updatePathEnds_points_frame getBoundFromPoints c10Abs c10Conn).1 (by
    constructor <;>
      norm_num [getNewBound, getBoundFromPoints, c10Abs, c10Conn,
        PointLocation.fromVec, PointLocation.toXYTangentInOut,
        PointLocation.setVec, min_def, max_def])

/-- The full straight-mode updatePathEnds on the local connector model. -/
def updatePathEndsStraight (getEl : String → Option (Elem ℚ)) (c : Conn ℚ) :
    Conn ℚ :=
  updatePathEndsWith (generateStraightConnectorPath getEl) getBoundFromPoints c

/-- A coherent straight-mode connector (points serialize pathF, absolutePath
is pathF translated by the xywh origin) whose stored endpoints do not yet
match its connection positions — exactly the state updatePathEnds is invoked
on after an endpoint change. -/
def c1Conn : Conn ℚ :=
  { mode := ConnectorMode.Straight
    source := ⟨none, some (0, 0)⟩
    target := ⟨none, some (10, 0)⟩
    xywh := ⟨100, 100, 4, 4⟩
    pathF := [PointLocation.fromVec (0, 0), PointLocation.fromVec (2, 2),
              PointLocation.fromVec (4, 4)]
    absolutePath := [PointLocation.fromVec (100, 100),
                     PointLocation.fromVec (102, 102),
                     PointLocation.fromVec (104, 104)]
    points := [(PointLocation.fromVec ((0 : ℚ), 0)).toXYTangentInOut,
               (PointLocation.fromVec ((2 : ℚ), 2)).toXYTangentInOut,
               (PointLocation.fromVec ((4 : ℚ), 4)).toXYTangentInOut]
    modeUpdating := false }

/-- The serialized point of a plain coordinate pair. -/
def serOf (v : ℚ × ℚ) : XYTangentInOut ℚ := ⟨v, (0, 0), (0, 0), (0, 0), 0, 0⟩

/-- The state left by the first updatePathEnds run on c1Conn: the bound and
the persisted points were rewritten, but the cached relative path (and the
derived absolutePath) still hold the pre-run values. -/
def c1ConnAfter1 : Conn ℚ :=
  { c1Conn with
    xywh := ⟨0, 0, 102, 102⟩
    points := [serOf (0, 0), serOf (102, 102), serOf (10, 0)] }

/-- The state left by the second run: recomputing from the stale cached path
shrinks the bound and rewrites the path again. -/
def c1ConnAfter2 : Conn ℚ :=
  { c1Conn with
    xywh := ⟨0, 0, 10, 2⟩
    pathF := [PointLocation.fromVec (0, 0), PointLocation.fromVec (2, 2),
              PointLocation.fromVec (10, 0)]
    absolutePath := [PointLocation.fromVec (0, 0), PointLocation.fromVec (2, 2),
                     PointLocation.fromVec (10, 0)]
    points := [serOf (0, 0), serOf (102, 102), serOf (10, 0)] }

/-- Evaluation of the first run. -/
theorem c1_run1_eval :
    updatePathEndsStraight (fun _ => none) c1Conn = c1ConnAfter1 := by
  norm_num [updatePathEndsStraight, updatePathEndsWith, updatePathEndsCore,
    getNewBound, generateStraightConnectorPath, getConnectionPoint,
    getConnectionPointAux, Conn.endOf, ConnEnd.other, setEnds, Conn.pathOf,
    Conn.setPoints, Conn.setPath, getBoundFromPoints, c1Conn, c1ConnAfter1,
    serOf, PointLocation.fromVec, PointLocation.toXYTangentInOut,
    PointLocation.setVec, min_def, max_def, List.set]

/-- Evaluation of the second run. -/
theorem c1_run2_eval :
    updatePathEndsStraight (fun _ => none) c1ConnAfter1 = c1ConnAfter2 := by
  norm_num [updatePathEndsStraight, updatePathEndsWith, updatePathEndsCore,
    getNewBound, generateStraightConnectorPath, getConnectionPoint,
    getConnectionPointAux, Conn.endOf, ConnEnd.other, setEnds, Conn.pathOf,
    Conn.setPoints, Conn.setPath, getBoundFromPoints, c1Conn, c1ConnAfter1,
    c1ConnAfter2, serOf, PointLocation.fromVec, PointLocation.toXYTangentInOut,
    PointLocation.setVec, min_def, max_def, List.set]

/-- C1.  Running updatePathEnds twice on a connector with stable (here:
absent) shape references is NOT idempotent on the local connector model: the
first run takes the points-rewrite branch, which does not refresh the cached
relative path, so the second run recomputes from the stale path and changes
the bounding box and the path again.  This contradicts the spec's idempotence
requirement (a code bug: the points write leaves path and points
desynchronized). -/
theorem updatePathEnds_not_idempotent_on_local_model :
    (updatePathEndsStraight (fun _ => none)
        (updatePathEndsStraight (fun _ => none) c1Conn)).xywh ≠
      (updatePathEndsStraight (fun _ => none) c1Conn).xywh ∧
    (updatePathEndsStraight (fun _ => none)
        (updatePathEndsStraight (fun _ => none) c1Conn)).pathF ≠
      (updatePathEndsStraight (fun _ => none) c1Conn).pathF := by
  rw [c1_run1_eval, c1_run2_eval]
  constructor
  · norm_num [c1ConnAfter1, c1ConnAfter2, c1Conn, Bound.mk.injEq]
  · norm_num [c1ConnAfter1, c1ConnAfter2, c1Conn, PointLocation.fromVec]

/-- C6.  addPointIntoPath with a strictly interior insertIndex inserts exactly
one new point: the cubic Bezier point at t = 0.5 over the neighbors'
absOut/absIn controls in curve mode, the linear midpoint in straight mode; any
other index leaves the path unchanged. -/
theorem addPointIntoPath_midpoint {K : Type} [LinearOrderedField K]
    [DecidableEq K] (c : Conn K) (insertIndex : ℤ) :
    (1 ≤ insertIndex ∧ insertIndex ≤ (c.absolutePath.length : ℤ) - 1 →
      addPointIntoCurvePath c insertIndex =
        c.absolutePath.take insertIndex.toNat ++
          [PointLocation.fromVec (Vec.lrpCubic
              (c.absolutePath.getD (insertIndex.toNat - 1) default).p
              (c.absolutePath.getD (insertIndex.toNat - 1) default).absOut
              (c.absolutePath.getD insertIndex.toNat default).absIn
              (c.absolutePath.getD insertIndex.toNat default).p (1 / 2))] ++
          c.absolutePath.drop insertIndex.toNat ∧
      addPointIntoStraightPath c insertIndex =
        c.absolutePath.take insertIndex.toNat ++
          [PointLocation.fromVec (Vec.lrp
              (c.absolutePath.getD (insertIndex.toNat - 1) default).p
              (c.absolutePath.getD insertIndex.toNat default).p (1 / 2))] ++
          c.absolutePath.drop insertIndex.toNat ∧
      (addPointIntoCurvePath c insertIndex).length =
        c.absolutePath.length + 1 ∧
      (addPointIntoStraightPath c insertIndex).length =
        c.absolutePath.length + 1) ∧
    (¬(1 ≤ insertIndex ∧ insertIndex ≤ (c.absolutePath.length : ℤ) - 1) →
      addPointIntoCurvePath c insertIndex = c.absolutePath ∧
      addPointIntoStraightPath c insertIndex = c.absolutePath) := by
  constructor
  · rintro ⟨h1, h2⟩
    have hguard :
        ¬(insertIndex < 1 ∨ insertIndex > (c.absolutePath.length : ℤ) - 1) := by
      push_neg
      exact ⟨h1, h2⟩
    have hle : insertIndex.toNat ≤ c.absolutePath.length := by omega
    refine ⟨?_, ?_, ?_, ?_⟩
    · simp only [addPointIntoCurvePath, if_neg hguard]
    · simp only [addPointIntoStraightPath, if_neg hguard]
    · simp only [addPointIntoCurvePath, if_neg hguard]
      simp [List.length_append, List.length_take]
      omega
    · simp only [addPointIntoStraightPath, if_neg hguard]
      simp [List.length_append, List.length_take]
      omega
  · intro h
    have hguard :
        insertIndex < 1 ∨ insertIndex > (c.absolutePath.length : ℤ) - 1 := by
      rcases not_and_or.mp h with hl | hr
      · exact Or.inl (not_le.mp hl)
      · exact Or.inr (not_le.mp hr)
    constructor
    · simp only [addPointIntoCurvePath, if_pos hguard]
    · simp only [addPointIntoStraightPath, if_pos hguard]

/-- Scenario E connector: curve mode, two points (0,0) and (100,100) with zero
control vectors. -/
def c6Conn : Conn ℚ :=
  { mode := ConnectorMode.Curve
    source := ⟨none, some (0, 0)⟩
    target := ⟨none, some (100, 100)⟩
    xywh := ⟨0, 0, 100, 100⟩
    pathF := [PointLocation.fromVec (0, 0), PointLocation.fromVec (100, 100)]
    absolutePath := [PointLocation.fromVec (0, 0),
                     PointLocation.fromVec (100, 100)]
    points := [(PointLocation.fromVec ((0 : ℚ), 0)).toXYTangentInOut,
               (PointLocation.fromVec ((100 : ℚ), 100)).toXYTangentInOut]
    modeUpdating := false }

/-- Witness for C6, scenario E: inserting at index 1 between (0,0) and
(100,100) with zero control vectors yields (50,50) in both modes. -/
theorem addPointIntoPath_midpoint_witness :
    addPointIntoCurvePath c6Conn 1 =
      [PointLocation.fromVec (0, 0), PointLocation.fromVec (50, 50),
       PointLocation.fromVec (100, 100)] ∧
    addPointIntoStraightPath c6Conn 1 =
      [PointLocation.fromVec (0, 0), PointLocation.fromVec (50, 50),
       PointLocation.fromVec (100, 100)] := by
  obtain ⟨hc, hs, -, -⟩ :=
    (addPointIntoPath_midpoint c6Conn 1).1 (by norm_num [c6Conn])
  constructor
  · rw [hc]
    norm_num [c6Conn, Vec.lrpCubic, Vec.lrp, Vec.add, Vec.sub, Vec.mul,
      PointLocation.fromVec, PointLocation.absIn, PointLocation.absOut]
  · rw [hs]
    norm_num [c6Conn, Vec.lrp, Vec.add, Vec.sub, Vec.mul,
      PointLocation.fromVec]

/-- The scan of _removeExtraPointsOnOneLine only ever emits points of the
remaining path (or the pending run point). -/
theorem removeExtraGo_sublist {K : Type} [LinearOrderedField K] [DecidableEq K]
    (rest : List (PointLocation K)) :
    ∀ (prev lastOL : PointLocation K) (dir : Nat),
      (removeExtraGo prev lastOL dir rest).Sublist (lastOL :: rest) := by
  induction rest with
  | nil => intro prev lastOL dir; simp [removeExtraGo]
  | cons q tl ih =>
    intro prev lastOL dir
    unfold removeExtraGo
    split_ifs
    · exact List.Sublist.cons lastOL (ih q q dir)
    · exact List.Sublist.cons₂ lastOL (ih q q (dirOf q prev))

/-- The scan always ends with the last point of the remaining path (or the
pending run point when the path is exhausted). -/
theorem removeExtraGo_getLast {K : Type} [LinearOrderedField K] [DecidableEq K]
    (rest : List (PointLocation K)) :
    ∀ (prev lastOL : PointLocation K) (dir : Nat),
      (removeExtraGo prev lastOL dir rest).getLast? = some (rest.getLastD lastOL) := by
  induction rest with
  | nil => intro prev lastOL dir; simp [removeExtraGo]
  | cons q tl ih =>
    intro prev lastOL dir
    unfold removeExtraGo
    split_ifs
    · rw [ih q q dir, List.getLastD_cons]
    · rw [List.getLast?_cons, ih q q (dirOf q prev),
        Option.getD_some, List.getLastD_cons]

/-- C7 (amended).  removeExtraPoints is a no-op on connectors not in
orthogonal mode, and the collinear collapse returns a subsequence of the path
preserving its first and last points.  (The collapse is not idempotent in
general and may drop sub-tolerance direction changes; see the
counterexample.) -/
theorem removeExtraPoints_noop_and_subsequence {K : Type} [LinearOrderedField K]
    [DecidableEq K] :
    (∀ c : Conn K, c.mode ≠ ConnectorMode.Orthogonal → removeExtraPoints c = c) ∧
    (∀ path : List (PointLocation K),
      (removeExtraPointsOnOneLine path).Sublist path ∧
      (removeExtraPointsOnOneLine path).head? = path.head? ∧
      (removeExtraPointsOnOneLine path).getLast? = path.getLast?) := by
  constructor
  · intro c h
    simp [removeExtraPoints, h]
  · intro path
    match path with
    | [] => simp [removeExtraPointsOnOneLine]
    | [p0] => simp [removeExtraPointsOnOneLine]
    | [p0, p1] => simp [removeExtraPointsOnOneLine]
    | p0 :: p1 :: p2 :: rest =>
      refine ⟨?_, ?_, ?_⟩
      · exact List.Sublist.cons₂ p0 (removeExtraGo_sublist (p2 :: rest) p1 p1 (dirOf p0 p1))
      · simp [removeExtraPointsOnOneLine]
      · show (p0 :: removeExtraGo p1 p1 (dirOf p0 p1) (p2 :: rest)).getLast? =
          (p0 :: p1 :: p2 :: rest).getLast?
        rw [List.getLast?_cons,
          removeExtraGo_getLast (p2 :: rest) p1 p1 (dirOf p0 p1),
          Option.getD_some]
        simp [List.getLast?_cons, List.getLastD_eq_getLast?, List.getLastD_cons]

/-- The four-point orthogonal-ish path refuting idempotence: a vertical run
with a sub-tolerance x-drift followed by a horizontal segment. -/
def c7Path : List (PointLocation ℚ) :=
  [PointLocation.fromVec (0, 0), PointLocation.fromVec (0, 3),
   PointLocation.fromVec (1 / 25, 151 / 50), PointLocation.fromVec (10, 3)]

/-- C7 counterexample: applying the collinear collapse twice collapses
further than applying it once (the first pass leaves consecutive points whose
y coordinates differ by less than the 0.05 tolerance, which the second pass
then merges), so the collapse is not idempotent as the claim states. -/
theorem removeExtraPoints_collapse_not_idempotent :
    removeExtraPointsOnOneLine (removeExtraPointsOnOneLine c7Path) ≠
      removeExtraPointsOnOneLine c7Path := by
  have h1 : removeExtraPointsOnOneLine c7Path =
      [PointLocation.fromVec (0, 0), PointLocation.fromVec (1 / 25, 151 / 50),
       PointLocation.fromVec (10, 3)] := by
    norm_num [c7Path, removeExtraPointsOnOneLine, removeExtraGo, dirOf,
      coordAt, almostEqual, abs_lt, PointLocation.fromVec]
  have h2 : removeExtraPointsOnOneLine
      [PointLocation.fromVec ((0 : ℚ), 0), PointLocation.fromVec (1 / 25, 151 / 50),
       PointLocation.fromVec (10, 3)] =
      [PointLocation.fromVec (0, 0), PointLocation.fromVec (10, 3)] := by
    norm_num [removeExtraPointsOnOneLine, removeExtraGo, dirOf,
      coordAt, almostEqual, abs_lt, PointLocation.fromVec]
  rw [h1, h2]
  intro h
  have := congrArg List.length h
  simp at this

/-- A straight-mode connector for the C7 no-op witness. -/
def c7NoopConn : Conn ℚ :=
  { mode := ConnectorMode.Straight
    source := ⟨none, some (0, 0)⟩
    target := ⟨none, some (1, 0)⟩
    xywh := ⟨0, 0, 1, 0⟩
    pathF := [PointLocation.fromVec (0, 0), PointLocation.fromVec (1, 0)]
    absolutePath := [PointLocation.fromVec (0, 0), PointLocation.fromVec (1, 0)]
    points := [(PointLocation.fromVec ((0 : ℚ), 0)).toXYTangentInOut,
               (PointLocation.fromVec ((1 : ℚ), 0)).toXYTangentInOut]
    modeUpdating := false }

/-- Witness for the amended C7 at concrete inputs. -/
theorem removeExtraPoints_noop_and_subsequence_witness :
    removeExtraPoints c7NoopConn = c7NoopConn ∧
    (removeExtraPointsOnOneLine c7Path).Sublist c7Path :=
  ⟨(@removeExtraPoints_noop_and_subsequence ℚ _ _).1 c7NoopConn (by decide),
   ((@removeExtraPoints_noop_and_subsequence ℚ _ _).2 c7Path).1⟩

/-- Writing a coordinate along a direction is read back by the same
direction. -/
theorem coordAt_setCoordP {K : Type} [LinearOrderedField K] [DecidableEq K]
    (q : PointLocation K) (d : Nat) (w : K) :
    coordAt (setCoordP q d w).p d = w := by
  by_cases hd : d = 0 <;> simp [setCoordP, coordAt, hd]

/-- movedCoordOf under an applicable after-side snap: the after value wins. -/
theorem movedCoordOf_eq_after {K : Type} [LinearOrderedField K] [DecidableEq K]
    (path : List (PointLocation K)) (i : Nat) (pt : K × K) (av : K)
    (hav : afterLineValOf path i = some av)
    (hd : movingDirOf path i = afterLineDirOf path i)
    (hlt : |coordAt pt (movingDirOf path i) - av| < 10) :
    movedCoordOf path i pt = av := by
  simp only [movedCoordOf, hav]
  rw [if_pos ⟨hd, hlt⟩]

/-- movedCoordOf with no after-side snap but an applicable before-side snap. -/
theorem movedCoordOf_eq_before {K : Type} [LinearOrderedField K]
    [DecidableEq K] (path : List (PointLocation K)) (i : Nat) (pt : K × K)
    (bv : K) (hnotafter : ¬ snapAfterCond path i pt)
    (hbv : beforeLineValOf path i = some bv)
    (hd : movingDirOf path i = beforeLineDirOf path i)
    (hlt : |coordAt pt (movingDirOf path i) - bv| < 10) :
    movedCoordOf path i pt = bv := by
  cases haf : afterLineValOf path i with
  | none => simp only [movedCoordOf, hbv, haf]; rw [if_pos ⟨hd, hlt⟩]
  | some av =>
    have hcond : ¬(movingDirOf path i = afterLineDirOf path i ∧
        |coordAt pt (movingDirOf path i) - av| < 10) := by
      rintro ⟨x, y⟩
      exact hnotafter ⟨av, haf, x, y⟩
    simp only [movedCoordOf, hbv, haf]
    rw [if_neg hcond, if_pos ⟨hd, hlt⟩]

/-- movedCoordOf with no applicable snap: the raw coordinate is kept. -/
theorem movedCoordOf_eq_raw {K : Type} [LinearOrderedField K] [DecidableEq K]
    (path : List (PointLocation K)) (i : Nat) (pt : K × K)
    (hnotafter : ¬ snapAfterCond path i pt)
    (hnotbefore : ¬ snapBeforeCond path i pt) :
    movedCoordOf path i pt = coordAt pt (movingDirOf path i) := by
  have hbw : (match beforeLineValOf path i with
      | some bv => if movingDirOf path i = beforeLineDirOf path i ∧
          |coordAt pt (movingDirOf path i) - bv| < 10 then bv
        else coordAt pt (movingDirOf path i)
      | none => coordAt pt (movingDirOf path i)) =
        coordAt pt (movingDirOf path i) := by
    cases hbf : beforeLineValOf path i with
    | none => rfl
    | some bv =>
      have hcond : ¬(movingDirOf path i = beforeLineDirOf path i ∧
          |coordAt pt (movingDirOf path i) - bv| < 10) := by
        rintro ⟨x, y⟩
        exact hnotbefore ⟨bv, hbf, x, y⟩
      simp only [if_neg hcond]
  cases haf : afterLineValOf path i with
  | none => simp only [movedCoordOf, haf]; exact hbw
  | some av =>
    have hcond : ¬(movingDirOf path i = afterLineDirOf path i ∧
        |coordAt pt (movingDirOf path i) - av| < 10) := by
      rintro ⟨x, y⟩
      exact hnotafter ⟨av, haf, x, y⟩
    simp only [movedCoordOf, haf]
    rw [if_neg hcond]
    exact hbw

/-- C8 (amended).  For an interior orthogonal move, the returned index and
path length are unchanged and both points adjacent to the moved segment
receive, along the moving axis, one single snapped value with after-side
priority: the after-side fixed value when it is within 10 of the new
coordinate, otherwise the before-side fixed value when that one is within 10,
otherwise the raw coordinate.  In particular a before-side near-miss does not
survive an applicable after-side snap. -/
theorem moveOrthogonalPoint_snap_priority {K : Type} [LinearOrderedField K]
    [DecidableEq K] (path : List (PointLocation K)) (i : Nat) (pt : K × K)
    (_h0 : 0 < i) (h2 : i + 2 < path.length) :
    (moveOrthogonalPointInterior path i pt).2 = i ∧
    (moveOrthogonalPointInterior path i pt).1.length = path.length ∧
    coordAt ((moveOrthogonalPointInterior path i pt).1.getD i default).p
        (movingDirOf path i) = movedCoordOf path i pt ∧
    coordAt ((moveOrthogonalPointInterior path i pt).1.getD (i + 1) default).p
        (movingDirOf path i) = movedCoordOf path i pt ∧
    (snapAfterCond path i pt →
      ∀ av, afterLineValOf path i = some av → movedCoordOf path i pt = av) ∧
    (¬ snapAfterCond path i pt → snapBeforeCond path i pt →
      ∀ bv, beforeLineValOf path i = some bv → movedCoordOf path i pt = bv) ∧
    (¬ snapAfterCond path i pt → ¬ snapBeforeCond path i pt →
      movedCoordOf path i pt = coordAt pt (movingDirOf path i)) := by
  refine ⟨rfl, ?_, ?_, ?_, ?_, ?_, ?_⟩
  · simp [moveOrthogonalPointInterior, List.length_set]
  · show coordAt (((path.set i _).set (i + 1) _).getD i default).p
        (movingDirOf path i) = movedCoordOf path i pt
    rw [List.getD_eq_getElem?_getD, List.getElem?_set_ne (by omega),
      List.getElem?_set_self (by omega), Option.getD_some, coordAt_setCoordP]
  · show coordAt (((path.set i _).set (i + 1) _).getD (i + 1) default).p
        (movingDirOf path i) = movedCoordOf path i pt
    rw [List.getD_eq_getElem?_getD,
      List.getElem?_set_self (by rw [List.length_set]; omega),
      Option.getD_some, coordAt_setCoordP]
  · rintro ⟨av', hav', hd, hlt⟩ av hav
    have : av' = av := by rw [hav'] at hav; exact Option.some.inj hav
    subst this
    exact movedCoordOf_eq_after path i pt av' hav' hd hlt
  · rintro hna ⟨bv', hbv', hd, hlt⟩ bv hbv
    have : bv' = bv := by rw [hbv'] at hbv; exact Option.some.inj hbv
    subst this
    exact movedCoordOf_eq_before path i pt bv' hna hbv' hd hlt
  · exact movedCoordOf_eq_raw path i pt

/-- The seven-point orthogonal path whose before-side value (x = 0) and
after-side value (x = 12) are both within 10 of the dragged coordinate. -/
def c8Path : List (PointLocation ℚ) :=
  [PointLocation.fromVec (0, 0), PointLocation.fromVec (0, 10),
   PointLocation.fromVec (5, 10), PointLocation.fromVec (5, 20),
   PointLocation.fromVec (12, 20), PointLocation.fromVec (12, 30),
   PointLocation.fromVec (20, 30)]

/-- C8 counterexample: moving interior index 2 to x = 6 lies within 10 of the
before-side fixed value 0, yet both adjacent points end at exactly 12 (the
after-side value overrides), not at 0 — refuting the claim that any
within-10 next-but-one value receives the points. -/
theorem moveOrthogonal_before_snap_overridden :
    movingDirOf c8Path 2 = beforeLineDirOf c8Path 2 ∧
    beforeLineValOf c8Path 2 = some 0 ∧
    |coordAt ((6 : ℚ), 15) (movingDirOf c8Path 2) - 0| < 10 ∧
    ((moveOrthogonalPointInterior c8Path 2 ((6 : ℚ), 15)).1.getD 2 default).p.1 = 12 ∧
    ((moveOrthogonalPointInterior c8Path 2 ((6 : ℚ), 15)).1.getD 3 default).p.1 = 12 ∧
    (12 : ℚ) ≠ 0 := by
  have hmd : movingDirOf c8Path 2 = 0 := by decide
  have hav : afterLineValOf c8Path 2 = some 12 := by decide
  have hcoord : coordAt ((6 : ℚ), 15) (movingDirOf c8Path 2) = 6 := by
    rw [hmd]
    decide
  have hw : movedCoordOf c8Path 2 ((6 : ℚ), 15) = 12 := by
    refine movedCoordOf_eq_after c8Path 2 ((6 : ℚ), 15) 12 hav (by decide) ?_
    rw [hcoord, abs_lt]
    constructor <;> norm_num
  refine ⟨by decide, by decide, ?_, ?_, ?_, by norm_num⟩
  · rw [hcoord, abs_lt]
    constructor <;> norm_num
  · simp only [moveOrthogonalPointInterior]
    rw [hw, hmd]
    decide
  · simp only [moveOrthogonalPointInterior]
    rw [hw, hmd]
    decide

/-- Witness for the amended C8 at the concrete path: after-side priority. -/
theorem moveOrthogonalPoint_snap_priority_witness :
    (moveOrthogonalPointInterior c8Path 2 ((6 : ℚ), 15)).2 = 2 ∧
    movedCoordOf c8Path 2 ((6 : ℚ), 15) = 12 := by
  have h := moveOrthogonalPoint_snap_priority c8Path 2 ((6 : ℚ), 15)
    (by norm_num) (by decide)
  have hav : afterLineValOf c8Path 2 = some 12 := by decide
  refine ⟨h.1, ?_⟩
  refine h.2.2.2.2.1 ⟨12, hav, by decide, ?_⟩ 12 hav
  rw [show movingDirOf c8Path 2 = 0 from by decide]
  show |(6 : ℚ) - 12| < 10
  rw [abs_lt]
  constructor <;> norm_num

/-- The lexicographic key comparator is transitive. -/
theorem lexLe_trans {K : Type} [LinearOrderedField K] [DecidableEq K] :
    ∀ a b c : K × K, lexLe a b = true → lexLe b c = true → lexLe a c = true := by
  intro a b c hab hbc
  simp only [lexLe, decide_eq_true_eq] at *
  rcases hab with h1 | ⟨h1, h1'⟩ <;> rcases hbc with h2 | ⟨h2, h2'⟩
  · exact Or.inl (h1.trans h2)
  · exact Or.inl (h2 ▸ h1)
  · exact Or.inl (h1 ▸ h2)
  · exact Or.inr ⟨h1.trans h2, h1'.trans h2'⟩

/-- The lexicographic key comparator is total. -/
theorem lexLe_total {K : Type} [LinearOrderedField K] [DecidableEq K] :
    ∀ a b : K × K, (lexLe a b || lexLe b a) = true := by
  intro a b
  simp only [lexLe, Bool.or_eq_true, decide_eq_true_eq]
  rcases lt_trichotomy a.1 b.1 with h | h | h
  · exact Or.inl (Or.inl h)
  · rcases le_total a.2 b.2 with h' | h'
    · exact Or.inl (Or.inr ⟨h, h'⟩)
    · exact Or.inr (Or.inr ⟨h.symm, h'⟩)
  · exact Or.inr (Or.inl h)

/-- The lexicographic key comparator is antisymmetric. -/
theorem lexLe_antisymm {K : Type} [LinearOrderedField K] [DecidableEq K] :
    ∀ a b : K × K, lexLe a b = true → lexLe b a = true → a = b := by
  intro a b hab hba
  simp only [lexLe, decide_eq_true_eq] at *
  rcases hab with h1 | ⟨h1, h1'⟩ <;> rcases hba with h2 | ⟨h2, h2'⟩
  · exact absurd (h1.trans h2) (lt_irrefl _)
  · exact absurd h1 (h2 ▸ lt_irrefl _)
  · exact absurd h2 (h1 ▸ lt_irrefl _)
  · exact Prod.ext h1 (le_antisymm h1' h2')

/-- In a list sorted by the lexicographic comparator, an equal adjacent pair
exists exactly when the list has a duplicate. -/
theorem adjEq_iff_not_nodup {K : Type} [LinearOrderedField K] [DecidableEq K] :
    ∀ l : List (K × K), l.Pairwise (fun a b => lexLe a b = true) →
      (adjEq l = true ↔ ¬ l.Nodup) := by
  intro l
  induction l with
  | nil => intro _; simp [adjEq]
  | cons a tl ih =>
    intro hp
    cases tl with
    | nil => simp [adjEq]
    | cons b tl2 =>
      have hpc := List.pairwise_cons.mp hp
      have hp2 : (b :: tl2).Pairwise (fun a b => lexLe a b = true) := hpc.2
      have hab : lexLe a b = true := hpc.1 b (by simp)
      by_cases hab_eq : a = b
      · subst hab_eq
        simp [adjEq, List.nodup_cons]
      · have hanotin : a ∉ tl2 := by
          intro hmem
          have hba : lexLe b a = true := (List.pairwise_cons.mp hp2).1 a hmem
          exact hab_eq (lexLe_antisymm a b hab hba)
        have hadj : adjEq (a :: b :: tl2) = adjEq (b :: tl2) := by
          simp [adjEq, hab_eq]
        have hnodup : (a :: b :: tl2).Nodup ↔ (b :: tl2).Nodup := by
          simp [List.nodup_cons, hab_eq, hanotin]
        rw [hadj, hnodup]
        exact ih hp2

/-- hasDuplicateKey detects exactly the existence of two points with the same
coordinate key. -/
theorem hasDuplicateKey_iff {K : Type} [LinearOrderedField K] [DecidableEq K]
    (pts : List (K × K × K)) :
    hasDuplicateKey pts = true ↔ ¬ (pts.map keyOf).Nodup := by
  unfold hasDuplicateKey
  have hperm := List.mergeSort_perm (pts.map keyOf) lexLe
  have hsorted := List.sorted_mergeSort lexLe_trans lexLe_total (pts.map keyOf)
  rw [adjEq_iff_not_nodup _ hsorted]
  exact not_congr hperm.nodup_iff

/-- C9.  If two distinct candidate points still have identical coordinates
after the deduplication pass, the candidate-set construction aborts with the
'duplicate point' diagnostic rather than silently keeping one; and whenever
the check succeeds, the returned candidate set contains no two points with
identical coordinates. -/
theorem duplicate_candidates_abort {K : Type} [LinearOrderedField K]
    [FloorRing K] [DecidableEq K] (raw ps : List (K × K × K)) :
    (getConnectablePointsChecked raw = Except.error "duplicate point" ↔
      ¬ ((removeDulicatePoints raw).map keyOf).Nodup) ∧
    (checkDuplicate ps = Except.ok ps ↔ (ps.map keyOf).Nodup) := by
  constructor
  · unfold getConnectablePointsChecked checkDuplicate
    split_ifs with h
    · exact iff_of_true rfl ((hasDuplicateKey_iff _).mp h)
    · have hnodup : ((removeDulicatePoints raw).map keyOf).Nodup := by
        by_contra hn
        exact h ((hasDuplicateKey_iff _).mpr hn)
      refine iff_of_false (by simp) (not_not.mpr hnodup)
  · unfold checkDuplicate
    split_ifs with h
    · exact iff_of_false (by simp) ((hasDuplicateKey_iff _).mp h)
    · have hnodup : (ps.map keyOf).Nodup := by
        by_contra hn
        exact h ((hasDuplicateKey_iff _).mpr hn)
      exact iff_of_true rfl hnodup

/-- Squared distances are nonnegative. -/
theorem distSq_nonneg (a b : ℚ × ℚ) : 0 ≤ Vec.distSq a b := by
  unfold Vec.distSq
  positivity

/-- Case analysis of one selection step. -/
theorem selectStep_cases (st : ((ℚ × ℚ) × (ℚ × ℚ)) × Option ℚ)
    (pr : (ℚ × ℚ) × (ℚ × ℚ)) :
    (selectStep st pr = (pr, some (Vec.distSq pr.1 pr.2)) ∧
      (st.2 = none ∨ ∃ m0, st.2 = some m0 ∧
        sqrtAddLtSqrt (Vec.distSq pr.1 pr.2) (1 / 10) m0 = true)) ∨
    (selectStep st pr = st ∧ ∃ m0, st.2 = some m0 ∧
      ¬ sqrtAddLtSqrt (Vec.distSq pr.1 pr.2) (1 / 10) m0 = true) := by
  unfold selectStep
  split
  next heq =>
    left
    exact ⟨rfl, Or.inl heq⟩
  next m0 heq =>
    by_cases hcmp : sqrtAddLtSqrt (Vec.distSq pr.1 pr.2) (1 / 10) m0 = true
    · rw [if_pos hcmp]
      left
      exact ⟨rfl, Or.inr ⟨m0, heq, hcmp⟩⟩
    · rw [if_neg hcmp]
      right
      exact ⟨rfl, m0, heq, hcmp⟩

/-- Invariants of the selection fold: the stored square is the selected
pair's, the selected distance only decreases, and it stays within 0.1 of the
distance of every processed pair. -/
theorem selectFold_props :
    ∀ (L : List ((ℚ × ℚ) × (ℚ × ℚ))) (st : ((ℚ × ℚ) × (ℚ × ℚ)) × Option ℚ),
      (∀ m, st.2 = some m → m = Vec.distSq st.1.1 st.1.2) →
      (∀ m, (L.foldl selectStep st).2 = some m →
        m = Vec.distSq (L.foldl selectStep st).1.1 (L.foldl selectStep st).1.2) ∧
      (∀ m m', st.2 = some m → (L.foldl selectStep st).2 = some m' →
        Real.sqrt ((m' : ℚ) : ℝ) ≤ Real.sqrt ((m : ℚ) : ℝ)) ∧
      (∀ pr ∈ L, ∀ m', (L.foldl selectStep st).2 = some m' →
        Real.sqrt ((m' : ℚ) : ℝ) ≤
          Real.sqrt ((Vec.distSq pr.1 pr.2 : ℚ) : ℝ) + 1 / 10) ∧
      ((L ≠ [] ∨ st.2 ≠ none) → (L.foldl selectStep st).2 ≠ none) := by
  intro L
  induction L with
  | nil =>
    intro st hself
    refine ⟨hself, ?_, ?_, ?_⟩
    · intro m m' h1 h2
      simp only [List.foldl_nil] at h2
      rw [h1] at h2
      rw [Option.some.inj h2]
    · intro pr hpr
      cases hpr
    · intro h
      rcases h with h | h
      · exact absurd rfl h
      · simpa using h
  | cons pr L ih =>
    intro st hself
    rw [List.foldl_cons]
    have hd0 : (0 : ℚ) ≤ Vec.distSq pr.1 pr.2 := distSq_nonneg pr.1 pr.2
    have hc0 : (0 : ℚ) ≤ 1 / 10 := by norm_num
    have hself' : ∀ m, (selectStep st pr).2 = some m →
        m = Vec.distSq (selectStep st pr).1.1 (selectStep st pr).1.2 := by
      rcases selectStep_cases st pr with ⟨heq, -⟩ | ⟨heq, -⟩
      · rw [heq]
        intro m hm
        simpa using Option.some.inj hm |>.symm
      · rw [heq]
        exact hself
    obtain ⟨ih1, ih2, ih3, ih4⟩ := ih (selectStep st pr) hself'
    have hstep_some : (selectStep st pr).2 ≠ none := by
      rcases selectStep_cases st pr with ⟨heq, -⟩ | ⟨heq, ⟨m0, hm0, -⟩⟩
      · rw [heq]; simp
      · rw [heq, hm0]; simp
    refine ⟨ih1, ?_, ?_, ?_⟩
    · intro m m' hm hm'
      rcases selectStep_cases st pr with ⟨heq, hcase⟩ | ⟨heq, ⟨m0, hm0, hcmp⟩⟩
      · rcases hcase with hnone | ⟨m0, hm0, hcmp⟩
        · rw [hm] at hnone; cases hnone
        · have hm0m : m0 = m := by rw [hm] at hm0; exact (Option.some.inj hm0).symm
          subst hm0m
          have hlt := (sqrtAddLtSqrt_correct _ _ _ hd0 hc0).mp hcmp
          have h1 : Real.sqrt ((m' : ℚ) : ℝ) ≤
              Real.sqrt ((Vec.distSq pr.1 pr.2 : ℚ) : ℝ) := by
            refine ih2 (Vec.distSq pr.1 pr.2) m' ?_ hm'
            rw [heq]
          linarith
      · have hm0m : m0 = m := by rw [hm] at hm0; exact (Option.some.inj hm0).symm
        subst hm0m
        refine ih2 m0 m' ?_ hm'
        rw [heq, hm]
    · intro pr' hpr' m' hm'
      rcases List.mem_cons.mp hpr' with hpe | hmem
      · subst hpe
        rcases selectStep_cases st pr' with ⟨heq, -⟩ | ⟨heq, ⟨m0, hm0, hcmp⟩⟩
        · have h1 : Real.sqrt ((m' : ℚ) : ℝ) ≤
              Real.sqrt ((Vec.distSq pr'.1 pr'.2 : ℚ) : ℝ) := by
            refine ih2 (Vec.distSq pr'.1 pr'.2) m' ?_ hm'
            rw [heq]
          linarith
        · have hge : Real.sqrt ((m0 : ℚ) : ℝ) ≤
              Real.sqrt ((Vec.distSq pr'.1 pr'.2 : ℚ) : ℝ) + 1 / 10 := by
            have := (sqrtAddLtSqrt_correct (Vec.distSq pr'.1 pr'.2) (1 / 10) m0
              hd0 hc0).not.mp hcmp
            push_neg at this
            simpa using this
          have h1 : Real.sqrt ((m' : ℚ) : ℝ) ≤ Real.sqrt ((m0 : ℚ) : ℝ) := by
            refine ih2 m0 m' ?_ hm'
            rw [heq, hm0]
          linarith
      · exact ih3 pr' hmem m' hm'
    · intro _
      exact ih4 (Or.inr hstep_some)

/-- C5 (amended).  The anchor pair selected by the double loop is within 0.1
of optimal: its Euclidean distance exceeds no other anchor pair's distance by
more than the loop's 0.1 slack (a pair only replaces the selection when it
improves it by more than 0.1, so the first such pair is kept on ties and
near-ties). -/
theorem selectClosestPair_within_tenth (sas eas : List (ℚ × ℚ))
    (sa ea : ℚ × ℚ) (hsa : sa ∈ sas) (hea : ea ∈ eas) :
    Vec.dist (selectClosestPair sas eas).1.1 (selectClosestPair sas eas).1.2 ≤
      Vec.dist sa ea + 1 / 10 := by
  have hmem : (sa, ea) ∈ sas.flatMap (fun a => eas.map (fun b => (a, b))) := by
    rw [List.mem_flatMap]
    exact ⟨sa, hsa, List.mem_map.mpr ⟨ea, hea, rfl⟩⟩
  obtain ⟨h1, h2, h3, h4⟩ := selectFold_props
    (sas.flatMap (fun a => eas.map (fun b => (a, b)))) (((0, 0), (0, 0)), none)
    (by intro m hm; exact absurd hm (by simp))
  have hne : (selectClosestPair sas eas).2 ≠ none := by
    refine h4 (Or.inl ?_)
    intro h
    rw [h] at hmem
    cases hmem
  rcases hm' : (selectClosestPair sas eas).2 with _ | m'
  · exact absurd hm' hne
  · have hmval := h1 m' hm'
    have hb := h3 (sa, ea) hmem m' hm'
    unfold Vec.dist
    rw [show Vec.distSq (selectClosestPair sas eas).1.1
        (selectClosestPair sas eas).1.2 = m' from hmval.symm]
    exact hb

/-- Witness for the amended C5 at concrete anchor lists. -/
theorem selectClosestPair_within_tenth_witness :
    Vec.dist (selectClosestPair [((0 : ℚ), 0)] [((3 : ℚ), 4)]).1.1
      (selectClosestPair [((0 : ℚ), 0)] [((3 : ℚ), 4)]).1.2 ≤
      Vec.dist (0, 0) (3, 4) + 1 / 10 :=
  selectClosestPair_within_tenth [((0 : ℚ), 0)] [((3 : ℚ), 4)] (0, 0) (3, 4)
    (by simp) (by simp)

/-- C5 counterexample: with one start anchor (0,0) and end anchors (1,0) then
(0.95,0), the loop keeps the first pair (the second improves the distance by
only 0.05, less than the 0.1 slack), so the selected pair's distance 1 is
strictly greater than the other pair's distance 0.95 — refuting exact
minimality. -/
theorem selectClosestPair_not_globally_minimal :
    (selectClosestPair [((0 : ℚ), 0)] [((1 : ℚ), 0), ((19 / 20 : ℚ), 0)]).1 =
      ((0, 0), (1, 0)) ∧
    Vec.dist (0, 0) (19 / 20, 0) < Vec.dist (0, 0) (1, 0) := by
  constructor
  · have hd1 : Vec.distSq ((0 : ℚ), 0) ((1 : ℚ), 0) = 1 := by
      norm_num [Vec.distSq]
    have hd2 : Vec.distSq ((0 : ℚ), 0) ((19 / 20 : ℚ), 0) = 361 / 400 := by
      norm_num [Vec.distSq]
    have hcmp : sqrtAddLtSqrt (361 / 400 : ℚ) (1 / 10) 1 = false := by
      have hB : ¬ ((4 : ℚ) * (1 / 10) ^ 2 * (361 / 400) <
          ((1 : ℚ) - 361 / 400 - (1 / 10) ^ 2) ^ 2) := by norm_num
      unfold sqrtAddLtSqrt
      rw [decide_eq_false hB]
      simp
    show (List.foldl selectStep (((0, 0), (0, 0)), none)
      [(((0 : ℚ), 0), ((1 : ℚ), 0)), (((0 : ℚ), 0), ((19 / 20 : ℚ), 0))]).1 =
      (((0 : ℚ), 0), ((1 : ℚ), 0))
    rw [List.foldl_cons, List.foldl_cons, List.foldl_nil]
    rw [show selectStep ((((0 : ℚ), 0), ((0 : ℚ), 0)), none)
        (((0 : ℚ), 0), ((1 : ℚ), 0)) =
        ((((0 : ℚ), 0), ((1 : ℚ), 0)),
          some (Vec.distSq ((0 : ℚ), 0) ((1 : ℚ), 0))) from rfl]
    rw [hd1]
    show (if sqrtAddLtSqrt (Vec.distSq ((0 : ℚ), 0) ((19 / 20 : ℚ), 0)) (1 / 10)
        (1 : ℚ) = true then
        ((((0 : ℚ), 0), ((19 / 20 : ℚ), 0)),
          some (Vec.distSq ((0 : ℚ), 0) ((19 / 20 : ℚ), 0)))
      else ((((0 : ℚ), 0), ((1 : ℚ), 0)), some (1 : ℚ))).1 =
      (((0 : ℚ), 0), ((1 : ℚ), 0))
    rw [hd2, hcmp]
    simp
  · unfold Vec.dist
    have hlt : ((Vec.distSq ((0 : ℚ), 0) ((19 / 20 : ℚ), 0) : ℚ) : ℝ) <
        ((Vec.distSq ((0 : ℚ), 0) ((1 : ℚ), 0) : ℚ) : ℝ) := by
      norm_num [Vec.distSq]
    refine Real.sqrt_lt_sqrt ?_ hlt
    exact_mod_cast distSq_nonneg ((0 : ℚ), 0) ((19 / 20 : ℚ), 0)

/-- The interior filter of mergePath only ever drops elements of its input. -/
theorem mergeInner_sublist {K : Type} [LinearOrderedField K] [DecidableEq K]
    (rest : List (K × K)) :
    ∀ prev : K × K, (mergeInner prev rest).Sublist rest := by
  induction rest with
  | nil => intro prev; simp [mergeInner]
  | cons q tl ih =>
    intro prev
    cases tl with
    | nil => simp [mergeInner]
    | cons t tl' =>
      unfold mergeInner
      split_ifs
      · exact List.Sublist.cons q (ih q)
      · exact List.Sublist.cons₂ q (ih q)

/-- The interior filter always ends with the last point of its input. -/
theorem mergeInner_getLast {K : Type} [LinearOrderedField K] [DecidableEq K]
    (tl : List (K × K)) :
    ∀ prev q : K × K,
      (mergeInner prev (q :: tl)).getLast? = some (tl.getLastD q) := by
  induction tl with
  | nil => intro prev q; simp [mergeInner]
  | cons t tl' ih =>
    intro prev q
    unfold mergeInner
    split_ifs
    · rw [ih q t, List.getLastD_cons]
    · rw [List.getLast?_cons, ih q t, Option.getD_some, List.getLastD_cons]

/-- C3 (amended).  The direct fast path is axis-aligned within the 0.02
tolerance — every consecutive pair of its points shares a coordinate within
0.02 — and mergePath, on any input of at least two points, returns a
subsequence of its input preserving the first and the last point.  (The
original claim fails: the fast paths can cross the strict interior of an
endpoint's unexpanded bound, see the counterexample, and after merging,
coordinates of consecutive points can differ by up to twice the tolerance,
which the source itself only checks with a non-fatal warning.) -/
theorem orthogonal_path_structure {K : Type} [LinearOrderedField K]
    [DecidableEq K] (s e : K × K) (pts : List (K × K))
    (h : 2 ≤ pts.length) :
    (∀ p ∈ (getDirectPath s e).zip (getDirectPath s e).tail,
      almostEqual p.1.1 p.2.1 (1 / 50) ∨ almostEqual p.1.2 p.2.2 (1 / 50)) ∧
    (mergePath pts).Sublist pts ∧
    (mergePath pts).head? = pts.head? ∧
    (mergePath pts).getLast? = pts.getLast? := by
  refine ⟨?_, ?_⟩
  · intro p hp
    unfold getDirectPath at hp
    by_cases hc : almostEqual s.1 e.1 (1 / 50) ∨ almostEqual s.2 e.2 (1 / 50)
    · rw [if_pos hc] at hp
      simp only [List.tail_cons, List.zip_cons_cons, List.zip_nil_right,
        List.mem_singleton] at hp
      subst hp
      exact hc
    · rw [if_neg hc] at hp
      simp only [List.tail_cons, List.zip_cons_cons, List.zip_nil_right,
        List.mem_cons, List.mem_singleton, List.not_mem_nil, or_false] at hp
      rcases hp with hp | hp
      · subst hp
        left
        unfold almostEqual
        simp only [sub_self, abs_zero]
        norm_num
      · subst hp
        right
        unfold almostEqual
        have hz : s.2 + (e.2 - s.2) - e.2 = 0 := by ring
        rw [hz, abs_zero]
        norm_num
  · match pts, h with
    | p0 :: q :: tl, _ =>
      refine ⟨?_, ?_, ?_⟩
      · show (p0 :: mergeInner p0 (q :: tl)).Sublist (p0 :: q :: tl)
        exact List.Sublist.cons₂ p0 (mergeInner_sublist (q :: tl) p0)
      · rfl
      · show (p0 :: mergeInner p0 (q :: tl)).getLast? =
          (p0 :: q :: tl).getLast?
        rw [List.getLast?_cons, mergeInner_getLast tl p0 q, Option.getD_some]
        simp [List.getLast?_cons, List.getLastD_eq_getLast?,
          List.getLastD_cons]

/-- Offsets of the counterexample bounds: no facing-edge branch fires (the
nested bound faces none of the start bound's edges from outside), so all four
clearances stay at 20 on both sides. -/
theorem c3_offsets :
    computeOffset (some ⟨0, 0, 10, 10⟩) (some ⟨2, 2, 6, 6⟩) =
      (((20 : ℝ), 20, 20, 20), ((20 : ℝ), 20, 20, 20)) := by
  norm_num [computeOffset, isOverlap, Bound.upperLine, Bound.lowerLine,
    Bound.leftLine, Bound.rightLine, Bound.maxX, Bound.maxY, min_def, max_def]

/-- The start point (0,5) sits on the left edge of its bound, so getNextPoint
pushes it 20 to the left. -/
theorem c3_nextStart :
    getNextPoint ⟨0, 0, 10, 10⟩ (PointLocation.fromVec ((0 : ℝ), 5))
      20 20 20 20 = (-20, 5) := by
  norm_num [getNextPoint, PointLocation.fromVec, almostEqual]

/-- The end point (2,5) sits on the left edge of its bound, so getNextPoint
pushes it 20 to the left. -/
theorem c3_nextEnd :
    getNextPoint ⟨2, 2, 6, 6⟩ (PointLocation.fromVec ((2 : ℝ), 5))
      20 20 20 20 = (-18, 5) := by
  norm_num [getNextPoint, PointLocation.fromVec, almostEqual]

/-- The prepared router info of the counterexample input. -/
theorem c3_prepare :
    prepareOrthogonalConnectorInfo c3Input =
      { startPoint := ((0 : ℝ), 5)
        endPoint := ((2 : ℝ), 5)
        nextStartPoint := ((-20 : ℝ), 5)
        lastEndPoint := ((-18 : ℝ), 5)
        startBound := some ⟨0, 0, 10, 10⟩
        endBound := some ⟨2, 2, 6, 6⟩
        expandStartBound := some ⟨-20, -20, 50, 50⟩
        expandEndBound := some ⟨-18, -18, 46, 46⟩ } := by
  unfold prepareOrthogonalConnectorInfo c3Input
  dsimp only
  rw [c3_offsets]
  dsimp only
  unfold computeNextStartEndpoint
  dsimp only
  rw [c3_nextStart, c3_nextEnd]
  norm_num [Bound.expand4, OrthogonalConnectorInfo.mk.injEq, Bound.mk.injEq,
    PointLocation.fromVec]

/-- C3 counterexample: on c3Input (start point (0,5) on the left edge of
bound (0,0,10,10), end point (2,5) on the left edge of the nested bound
(2,2,6,6)) the router takes the expanded-start-bound fast path and returns
the horizontal direct path from (0,5) to (2,5); the segment's midpoint (1,5)
lies strictly inside the start point's own unexpanded bound, refuting the
claim that no produced segment passes through such an interior. -/
theorem orthogonal_fast_path_crosses_bound_interior :
    generateSmallestOrthogonalConnectorPath c3Input =
      Except.ok [((0 : ℝ), 5), (2, 5)] ∧
    c3Input.startBound = some ⟨0, 0, 10, 10⟩ ∧
    Vec.lrp ((0 : ℝ), 5) ((2 : ℝ), 5) (1 / 2) = (1, 5) ∧
    Bound.strictInterior ⟨0, 0, 10, 10⟩ (1, 5) := by
  refine ⟨?_, rfl,
    by norm_num [Vec.lrp, Vec.add, Vec.sub, Vec.mul],
    by norm_num [Bound.strictInterior, Bound.maxX, Bound.maxY]⟩
  unfold generateSmallestOrthogonalConnectorPath
  rw [c3_prepare]
  dsimp only
  rw [if_neg, if_pos]
  · unfold getDirectPath
    rw [if_pos]
    · right
      unfold almostEqual
      norm_num
  · constructor
    · rfl
    · norm_num [optPointInBoundP, Bound.isPointInBound, Bound.maxX,
        Bound.maxY]
  · rintro ⟨-, hin⟩
    norm_num [optPointInBoundP, Bound.isPointInBound, Bound.maxX,
      Bound.maxY] at hin

/-- Witness for C3: the theorem applied at the start point (0,0), the end
point (3,4) and the two-point path [(0,0),(1,1)] over the rationals. -/
theorem orthogonal_path_structure_witness :
    (∀ p ∈ (getDirectPath ((0 : ℚ), 0) (3, 4)).zip
        (getDirectPath ((0 : ℚ), 0) (3, 4)).tail,
      almostEqual p.1.1 p.2.1 (1 / 50) ∨ almostEqual p.1.2 p.2.2 (1 / 50)) ∧
    (mergePath [((0 : ℚ), 0), (1, 1)]).Sublist [((0 : ℚ), 0), (1, 1)] ∧
    (mergePath [((0 : ℚ), 0), (1, 1)]).head? = [((0 : ℚ), 0), (1, 1)].head? ∧
    (mergePath [((0 : ℚ), 0), (1, 1)]).getLast? =
      [((0 : ℚ), 0), (1, 1)].getLast? :=
  orthogonal_path_structure ((0 : ℚ), 0) (3, 4) [((0 : ℚ), 0), (1, 1)]
    (by decide)

end Connector
